import Mathlib

/-!
Verification of the transformation-rule engine of the agile-pasta repository
(`TransformationEngine` in transformation_engine.cpp, with its collaborators
`Database`, `QueryEngine::select` and the `PsvTable` data model).

Strings are modelled as `List Char` (the C++ code manipulates byte strings;
all data of interest is ASCII).  Each C++ function is translated into an
executable Lean function of the same name where possible.  `std::regex`
(ECMAScript dialect) calls are translated into hand-written matchers that
implement the exact backtracking semantics of the three patterns the code
uses; the derivations are documented at each matcher.  Numeric values
produced by `std::stod` are modelled as exact decimal numbers
(mantissa, exponent) compared by cross-multiplication, which agrees with
IEEE double comparison on all inputs whose decimal values are
representable; the IEEE rounding of non-representable decimals and the
out-of-range overflow throw of `std::stod` are abstracted away.
-/

set_option maxRecDepth 10000

abbrev Str := List Char

/-- Shorthand to turn a Lean string literal into the `List Char` model. -/
def str (s : String) : Str := s.toList

/-- The character set `" \t"` used by the code's trimming idiom
`erase(0, find_first_not_of(" \t"))`. -/
def isWT (c : Char) : Bool := c = ' ' || c = '\t'

/-- `std::isspace` in the C locale and the ECMAScript `\s` class,
restricted to ASCII. -/
def isSpaceC (c : Char) : Bool :=
  c = ' ' || c = '\t' || c = '\n' || c = '\x0b' || c = '\x0c' || c = '\r'

/-- ASCII decimal digit. -/
def isDigitC (c : Char) : Bool := '0' ≤ c && c ≤ '9'

/-- ASCII alphabetic character (`std::isalpha`, C locale). -/
def isAlphaC (c : Char) : Bool := ('a' ≤ c && c ≤ 'z') || ('A' ≤ c && c ≤ 'Z')

/-- `std::isalnum` in the C locale. -/
def isAlnumC (c : Char) : Bool := isAlphaC c || isDigitC c

/-- A word character in the code's whole-word boundary rule:
alphanumeric or underscore. -/
def isWordC (c : Char) : Bool := isAlnumC c || c = '_'

/-- An ECMAScript `.`: any character except a line terminator. -/
def isDotC (c : Char) : Bool := !(c = '\n' || c = '\r')

/-- Remove the trailing run of space/tab characters:
`s.erase(s.find_last_not_of(" \t") + 1)`. -/
def dropTrailWT (s : Str) : Str := (s.reverse.dropWhile isWT).reverse

/-- The code's two-line trimming idiom: strip leading then trailing
space/tab characters. -/
def trimWT (s : Str) : Str := dropTrailWT (s.dropWhile isWT)

/-- `needle` is a prefix of `hay` (character-wise). -/
def leadsWith : Str → Str → Bool
  | [], _ => true
  | _ :: _, [] => false
  | a :: as, b :: bs => a = b && leadsWith as bs

/-- `hay.find(needle)`: index of the first occurrence of `needle` in `hay`,
`none` for `npos`.  Like `std::string::find`, an empty needle matches at
position 0. -/
def findSubstr (needle : Str) : Str → Option Nat
  | [] => if needle.isEmpty then some 0 else none
  | b :: bs =>
    if leadsWith needle (b :: bs) then some 0
    else (findSubstr needle bs).map (· + 1)

/-- `hay.find(needle, from)`. -/
def findSubstrFrom (needle hay : Str) (start : Nat) : Option Nat :=
  (findSubstr needle (hay.drop start)).map (· + start)

/-- Splitting with `std::getline(ss, part, d)` semantics: the empty string
yields no parts, and a trailing delimiter does not yield a trailing empty
part (the stream is exhausted after the delimiter is consumed). -/
def getlineSplit (d : Char) : Str → List Str
  | [] => []
  | c :: t =>
    if c = d then [] :: getlineSplit d t
    else
      match getlineSplit d t with
      | [] => [[c]]
      | p :: ps => (c :: p) :: ps

/-- Whitespace tokenisation, as performed by chained `operator>>`
extractions from a `std::stringstream` (`cur` holds the reversed token
being accumulated). -/
def wsTokAux (cur : Str) : Str → List Str
  | [] => if cur.isEmpty then [] else [cur.reverse]
  | c :: t =>
    if isSpaceC c then
      if cur.isEmpty then wsTokAux [] t else cur.reverse :: wsTokAux [] t
    else wsTokAux (c :: cur) t

/-- All whitespace-separated tokens of `s`, in order. -/
def wsTokenize (s : Str) : List Str := wsTokAux [] s

/-- One decimal digit as a character. -/
def digitChar (n : Nat) : Char := Char.ofNat (48 + n)

/-- Decimal digits of a natural number (fuel-structured so that the kernel
can evaluate it). -/
def natStrAux : Nat → Nat → Str
  | 0, _ => []
  | fuel + 1, n =>
    if n < 10 then [digitChar n] else natStrAux fuel (n / 10) ++ [digitChar (n % 10)]

/-- Decimal representation of a natural number, e.g. `natStr 12 = ['1','2']`. -/
def natStr (n : Nat) : Str := natStrAux (n + 1) n

/-- Number of occurrences of a character. -/
def countOcc (c : Char) (s : Str) : Nat := (s.filter (fun x => x = c)).length

/-- `std::string::operator<`: lexicographic comparison by character code. -/
def strLtC : Str → Str → Bool
  | [], [] => false
  | [], _ :: _ => true
  | _ :: _, [] => false
  | a :: as, b :: bs =>
    if a.toNat < b.toNat then true
    else if b.toNat < a.toNat then false
    else strLtC as bs

/-- An exact decimal number `m * 10 ^ e`, the model of a parsed `double`. -/
abbrev Dec := ℤ × ℤ

/-- Value of digit characters read most-significant first. -/
def digitsVal (ds : Str) : Nat := ds.foldl (fun a c => a * 10 + (c.toNat - 48)) 0

/-- Exponent digits after an optional sign; an empty digit run contributes
exponent 0 (strtod then stops before the `e`). -/
def expSigned (s : Str) : ℤ :=
  match s with
  | '-' :: u => if (u.takeWhile isDigitC).isEmpty then 0 else -(digitsVal (u.takeWhile isDigitC) : ℤ)
  | '+' :: u => if (u.takeWhile isDigitC).isEmpty then 0 else (digitsVal (u.takeWhile isDigitC) : ℤ)
  | u => if (u.takeWhile isDigitC).isEmpty then 0 else (digitsVal (u.takeWhile isDigitC) : ℤ)

/-- The optional exponent part `e[sign]digits`. -/
def expVal (s : Str) : ℤ :=
  match s with
  | 'e' :: t => expSigned t
  | 'E' :: t => expSigned t
  | _ => 0

/-- Model of `std::stod`: parse the longest decimal-number prefix of `s`
(leading whitespace skipped, optional sign, digits with an optional
fractional part, optional exponent); `none` when no conversion is possible
(`std::invalid_argument`).  Hexadecimal, `inf`/`nan` forms and the
out-of-range throw are not modelled. -/
def stodParse (s : Str) : Option Dec :=
  let s1 := s.dropWhile isSpaceC
  let p : Bool × Str :=
    match s1 with
    | '-' :: t => (true, t)
    | '+' :: t => (false, t)
    | t => (false, t)
  let ip := p.2.takeWhile isDigitC
  let r1 := p.2.dropWhile isDigitC
  let q : Str × Str :=
    match r1 with
    | '.' :: t => (t.takeWhile isDigitC, t.dropWhile isDigitC)
    | t => ([], t)
  if ip.isEmpty && q.1.isEmpty then none
  else
    let mag : ℤ := (digitsVal (ip ++ q.1) : ℤ)
    some (if p.1 then -mag else mag, expVal q.2 - (q.1.length : ℤ))

/-- Scale two decimals to a common exponent for integer comparison. -/
def decScale (a b : Dec) : ℤ × ℤ :=
  (a.1 * 10 ^ (a.2 - min a.2 b.2).toNat, b.1 * 10 ^ (b.2 - min a.2 b.2).toNat)

/-- `a ≤ b` on decimal values. -/
def decLe (a b : Dec) : Bool := (decScale a b).1 ≤ (decScale a b).2

/-- `a < b` on decimal values. -/
def decLt (a b : Dec) : Bool := (decScale a b).1 < (decScale a b).2

/-- `a = b` on decimal values. -/
def decEqv (a b : Dec) : Bool := (decScale a b).1 = (decScale a b).2

/-- The numeric branch of `evaluate_simple_condition`: dispatch on the
captured operator and compare the two parsed numbers. -/
def numCmp (op : Str) (a b : Dec) : Bool :=
  if op = str "=" then decEqv a b
  else if op = str "!=" then !decEqv a b
  else if op = str ">" then decLt b a
  else if op = str "<" then decLt a b
  else if op = str ">=" then decLe b a
  else if op = str "<=" then decLe a b
  else false

/-- The string branch of `evaluate_simple_condition`: dispatch on the
captured operator and compare with `std::string` ordering. -/
def strCmp (op : Str) (v w : Str) : Bool :=
  if op = str "=" then v = w
  else if op = str "!=" then v ≠ w
  else if op = str ">" then strLtC w v
  else if op = str "<" then strLtC v w
  else if op = str ">=" then !strLtC v w
  else if op = str "<=" then !strLtC w v
  else false

/-- The literal tail `\s*'([^']*)'` anchored at the end of the condition:
skip whitespace, expect a quote, and require the closing quote to be the
final character. -/
def litTail (r : Str) : Option Str :=
  match r.dropWhile isSpaceC with
  | '\'' :: t =>
    if t.dropWhile (fun c => c ≠ '\'') = ['\''] then some (t.takeWhile (fun c => c ≠ '\''))
    else none
  | _ => none

/-- The operator alternatives of the condition regex, in the pattern's
order `=|!=|>|<|>=|<=` (ECMAScript alternation is ordered and backtracks
into later alternatives when the rest of the pattern cannot match). -/
def opAlternatives : List Str := [str "=", str "!=", str ">", str "<", str ">=", str "<="]

/-- Matching of `std::regex_match` against `(\w+)\s*(=|!=|>|<|>=|<=)\s*'([^']*)'`.
Because no operator character is a word or whitespace character and the
literal opener is a quote, the backtracking search reduces to: the field is
the maximal leading `\w+` run, whitespace is skipped maximally, and the
ordered operator alternation takes the first alternative after which the
quoted-literal tail completes the whole string. -/
def simpleCondParse (cond : Str) : Option (Str × Str × Str) :=
  let f := cond.takeWhile isWordC
  if f.isEmpty then none
  else
    let r := (cond.dropWhile isWordC).dropWhile isSpaceC
    (opAlternatives.findSome? fun op =>
      if leadsWith op r then (litTail (r.drop op.length)).map fun l => (op, l)
      else none).map fun p => (f, p.1, p.2)

/-- `TransformationEngine::evaluate_simple_condition`: match the condition
grammar, resolve the field in `headers` (first occurrence, `std::find`),
fail closed on a missing field or a short row, and compare numerically
when both sides parse as numbers, else as strings. -/
def evaluate_simple_condition (cond : Str) (row : List Str) (headers : List Str) : Bool :=
  match simpleCondParse cond with
  | none => false
  | some (f, op, lit) =>
    match List.findIdx? (fun x => x = f) headers with
    | none => false
    | some idx =>
      match row.get? idx with
      | none => false
      | some v =>
        match stodParse v, stodParse lit with
        | some a, some b => numCmp op a b
        | _, _ => strCmp op v lit

/-- The two literal outcome tokens of a GLOBAL ternary condition. -/
def acceptTok : Str := str "ACCEPT"

/-- The REJECT outcome token. -/
def rejectTok : Str := str "REJECT"

/-- The ordered alternation `(ACCEPT|REJECT)`; the two tokens differ in
their first character, so the alternation is deterministic. -/
def outcomeTok (s : Str) : Option Str :=
  if leadsWith acceptTok s then some acceptTok
  else if leadsWith rejectTok s then some rejectTok
  else none

/-- The tail `\s*(ACCEPT|REJECT)\s*:\s*(ACCEPT|REJECT)` of the GLOBAL
ternary pattern, anchored at the end of the string.  Whitespace runs are
consumed maximally: no whitespace character can begin an outcome token or
be the colon, so the greedy `\s*` loops admit no backtracking here. -/
def condTernTail (after : Str) : Option (Str × Str) :=
  match outcomeTok (after.dropWhile isSpaceC) with
  | none => none
  | some t1 =>
    match ((after.dropWhile isSpaceC).drop 6).dropWhile isSpaceC with
    | ':' :: a3 =>
      match outcomeTok (a3.dropWhile isSpaceC) with
      | none => none
      | some t2 =>
        if ((a3.dropWhile isSpaceC).drop 6).isEmpty then some (t1, t2) else none
    | _ => none

/-- The lazy group `(.+?)\s*` before a `?` anchor at position `i`, given the
reversed prefix `pre = reverse (s.take i)`.  The lazy group takes the
shortest prefix `s.take j` (with `j ≥ 1`) such that `s[j..i)` is all
whitespace, i.e. `j = max (i - w) 1` where `w` is the whitespace run ending
at `i`; every character the group matches must be a `.` (no line
terminator), and if the minimal capture contains a line terminator then so
does every longer one, so the `?` anchor fails outright. -/
def lazyHeadCapture (pre : Str) : Option Str :=
  if pre.isEmpty then none
  else
    let w := (pre.takeWhile isSpaceC).length
    let j := max (pre.length - w) 1
    let g1 := (pre.drop (pre.length - j)).reverse
    if g1.all isDotC then some g1 else none

/-- One candidate `?` anchor for the GLOBAL ternary pattern. -/
def condTernAt (pre after : Str) : Option (Str × Str × Str) :=
  match lazyHeadCapture pre with
  | none => none
  | some g1 => (condTernTail after).map fun p => (g1, p.1, p.2)

/-- Left-to-right scan over the `?` occurrences of the subject: the lazy
leading group of `(.+?)\s*\?\s*(ACCEPT|REJECT)\s*:\s*(ACCEPT|REJECT)`
makes `std::regex_match` try the `?` anchors in ascending position order,
succeeding at the first anchor whose head capture and tail both match
(`pre` is the reversed portion already scanned). -/
def ternScanC (pre : Str) : Str → Option (Str × Str × Str)
  | [] => none
  | ch :: t =>
    if ch = '?' then
      match condTernAt pre t with
      | some r => some r
      | none => ternScanC (ch :: pre) t
    else ternScanC (ch :: pre) t

/-- `std::regex_match` of the GLOBAL rule condition against
`(.+?)\s*\?\s*(ACCEPT|REJECT)\s*:\s*(ACCEPT|REJECT)`, returning the three
captures. -/
def condTernaryMatch (s : Str) : Option (Str × Str × Str) := ternScanC [] s

/-- `TransformationEngine::evaluate_rule_condition`: a ternary
`cond ? ACCEPT : REJECT` selects its outcome token by evaluating `cond`
(trimmed) under the simple grammar and keeps the row iff the selected
token is `ACCEPT`; a non-ternary condition is evaluated directly. -/
def evaluate_rule_condition (condition : Str) (row headers : List Str) : Bool :=
  match condTernaryMatch condition with
  | some (c, t1, t2) =>
    (if evaluate_simple_condition (trimWT c) row headers then t1 else t2) = acceptTok
  | none => evaluate_simple_condition condition row headers

/-- The group-3 tail `\s*(.+)` of the FIELD ternary, anchored at the end:
`\s*` is consumed maximally first; if that leaves nothing, it backtracks
minimally so that the greedy `(.+)` captures the shortest non-empty
all-`.` suffix; a line terminator in the would-be capture fails every
alternative since each candidate capture is a suffix containing it. -/
def tailAfterColon (rest2 : Str) : Option Str :=
  let rem := rest2.dropWhile isSpaceC
  if rem.isEmpty then
    (List.range' 1 rest2.length).findSome? fun k =>
      let g := rest2.drop (rest2.length - k)
      if g.all isDotC then some g else none
  else if rem.all isDotC then some rem else none

/-- The tail `\s*(.+?)\s*:\s*(.+)` of the FIELD ternary after the `?`:
the first `\s*` is greedy (longest run first, backtracking shorter), the
middle group lazy (shortest first); for a fixed split, the `\s*` before
the colon is determined because whitespace cannot be a colon. -/
def exprTernTail (after : Str) : Option (Str × Str) :=
  ((List.range ((after.takeWhile isSpaceC).length + 1)).reverse).findSome? fun m =>
    let t := after.drop m
    (List.range' 1 t.length).findSome? fun L =>
      let g2 := t.take L
      if g2.all isDotC then
        match (t.drop L).dropWhile isSpaceC with
        | ':' :: rest2 => (tailAfterColon rest2).map fun g3 => (g2, g3)
        | _ => none
      else none

/-- One candidate `?` anchor for the FIELD ternary pattern. -/
def exprTernAt (pre after : Str) : Option (Str × Str × Str) :=
  match lazyHeadCapture pre with
  | none => none
  | some g1 => (exprTernTail after).map fun p => (g1, p.1, p.2)

/-- Ascending scan over `?` anchors for the FIELD ternary pattern. -/
def ternScanE (pre : Str) : Str → Option (Str × Str × Str)
  | [] => none
  | ch :: t =>
    if ch = '?' then
      match exprTernAt pre t with
      | some r => some r
      | none => ternScanE (ch :: pre) t
    else ternScanE (ch :: pre) t

/-- `std::regex_match` of a FIELD expression against
`(.+?)\s*\?\s*(.+?)\s*:\s*(.+)`, returning the three captures. -/
def exprTernaryMatch (s : Str) : Option (Str × Str × Str) := ternScanE [] s

/-- The quote-stripping step applied to the chosen ternary branch: one
layer of matching surrounding double or single quotes is removed.
`front()`/`back()` on an empty `std::string` read the terminating null
character (via `operator[]`), which is not a quote, so the empty branch is
returned unchanged. -/
def stripQuotes (v : Str) : Str :=
  match v.head?, v.getLast? with
  | some a, some b =>
    if (a = '"' && b = '"') || (a = '\'' && b = '\'') then (v.drop 1).dropLast else v
  | _, _ => v

/-- The placeholder token `__STRING_LITERAL_<n>__`. -/
def placeholderStr (n : Nat) : Str := str "__STRING_LITERAL_" ++ natStr n ++ str "__"

/-- First match of `q([^q]*)q` in `s`: the text before the first quote,
the literal content, and the text after the closing quote. -/
def splitFirstPair (q : Char) (s : Str) : Option (Str × Str × Str) :=
  let pre := s.takeWhile (fun c => c ≠ q)
  match s.dropWhile (fun c => c ≠ q) with
  | [] => none
  | _ :: rest =>
    match rest.dropWhile (fun c => c ≠ q) with
    | [] => none
    | _ :: post => some (pre, rest.takeWhile (fun c => c ≠ q), post)

/-- The `regex_search`/`format_first_only` replacement loop extracting
quoted literals: each iteration replaces the first `q...q` pair with a
fresh placeholder.  The text before the pair and the placeholder contain
no quote, so rescanning the whole string equals recursing on `post`; fuel
bounds the iteration count (each step removes at least two characters). -/
def extractQuotedAux (q : Char) : Nat → Nat → Str → Str × List (Str × Str) × Nat
  | 0, n, s => (s, [], n)
  | fuel + 1, n, s =>
    match splitFirstPair q s with
    | none => (s, [], n)
    | some (pre, content, post) =>
      let ph := placeholderStr n
      let r := extractQuotedAux q fuel (n + 1) post
      (pre ++ ph ++ r.1, (ph, content) :: r.2.1, r.2.2)

/-- Extract double-quoted then single-quoted literals, the placeholder
counter running across both passes, returning the rewritten expression and
the placeholder/content pairs in discovery order. -/
def extractLiterals (s : Str) : Str × List (Str × Str) :=
  let d := extractQuotedAux '"' (s.length + 1) 0 s
  let e := extractQuotedAux '\'' (d.1.length + 1) d.2.2 d.1
  (e.1, d.2.1 ++ e.2.1)

/-- Does position `p` fall inside the first occurrence of some
placeholder?  (The code locates each placeholder by its first occurrence
in the current expression.) -/
def inPlaceholderSpan (lits : List (Str × Str)) (e : Str) (p : Nat) : Bool :=
  lits.any fun l =>
    match findSubstr l.1 e with
    | some pp => decide (pp ≤ p) && decide (p < pp + l.1.length)
    | none => false

/-- The `while ((pos = find(header, pos)) != npos)` replacement loop for
one header: replace whole-word occurrences outside placeholder spans,
advancing `pos` past the replacement or past the failed match.  Each
iteration shrinks `length - pos` by at least the header length, so
`e.length + 1` fuel suffices for a non-empty header (the code does not
terminate on an empty header). -/
def substLoop (needle value : Str) (lits : List (Str × Str)) : Nat → Str → Nat → Str
  | 0, e, _ => e
  | fuel + 1, e, pos =>
    match findSubstrFrom needle e pos with
    | none => e
    | some p =>
      let startOk : Bool := p == 0 || !isWordC (e.getD (p - 1) ' ')
      let endOk : Bool := p + needle.length == e.length || !isWordC (e.getD (p + needle.length) ' ')
      if startOk && endOk && !inPlaceholderSpan lits e p then
        substLoop needle value lits fuel (e.take p ++ value ++ e.drop (p + needle.length)) (p + value.length)
      else substLoop needle value lits fuel e (p + needle.length)

/-- Replace whole-word occurrences of one header by its row value. -/
def substOne (e needle value : Str) (lits : List (Str × Str)) : Str :=
  substLoop needle value lits (e.length + 1) e 0

/-- The field-substitution pass: `for i < headers.size && i < row.size`,
sequentially replacing each header name by the row's value. -/
def substituteFields (e : Str) (headers row : List Str) (lits : List (Str × Str)) : Str :=
  (headers.zip row).foldl (fun acc hv => substOne acc hv.1 hv.2 lits) e

/-- Restore each placeholder (first occurrence) to its literal content. -/
def restoreLiterals (e : Str) (lits : List (Str × Str)) : Str :=
  lits.foldl (fun acc l =>
    match findSubstr l.1 acc with
    | some p => acc.take p ++ l.2 ++ acc.drop (p + l.1.length)
    | none => acc) e

/-- The string-concatenation branch: split on `+` with `getline`, append a
single space for a purely-whitespace non-empty part, else trim space/tab
and append when non-empty. -/
def concatParts (e : Str) : Str :=
  (getlineSplit '+' e).foldl (fun acc part =>
    if !part.isEmpty && part.all isSpaceC then acc ++ [' ']
    else
      let t := trimWT part
      if t.isEmpty then acc else acc ++ t) []

/-- Exact product of two decimal values. -/
def decMul (a b : Dec) : Dec := (a.1 * b.1, a.2 + b.2)

/-- Round `num / den` (with `den > 0`) to the nearest integer, ties to
even — the rounding applied when a decimal value is printed with six
fixed decimal places. -/
def roundHalfEvenDiv (num den : Nat) : Nat :=
  let q := num / den
  let r := num % den
  if den < 2 * r then q + 1
  else if 2 * r < den then q
  else if q % 2 = 0 then q else q + 1

/-- Left-pad a digit run to six characters with zeros. -/
def padSixZeros (ds : Str) : Str := List.replicate (6 - ds.length) '0' ++ ds

/-- `std::to_string(double)`, i.e. `%f` formatting with six decimal
places, on the exact decimal model. -/
def formatFixed6 (d : Dec) : Str :=
  let a : Nat := d.1.natAbs
  let n : Nat :=
    if 0 ≤ d.2 + 6 then a * 10 ^ (d.2 + 6).toNat
    else roundHalfEvenDiv a (10 ^ (-(d.2 + 6)).toNat)
  (if d.1 < 0 then ['-'] else []) ++ natStr (n / 1000000) ++ ['.'] ++ padSixZeros (natStr (n % 1000000))

/-- The multiplication branch: `ss >> left >> op >> right` reads the first
three whitespace tokens (the middle token is not inspected), both operands
must parse with `std::stod`, and the product is printed with
`std::to_string`; otherwise the expression is returned unchanged. -/
def mulExpr (e : Str) : Str :=
  let toks := wsTokenize e
  match stodParse (toks.getD 0 []), stodParse (toks.getD 2 []) with
  | some a, some b => formatFixed6 (decMul a b)
  | _, _ => e

/-- Content of a function call: from `find('(') + 1` up to the first `)`;
`none` when no closing parenthesis exists (the code then falls through and
returns the expression unchanged). -/
def funcContent (e : Str) : Option Str :=
  let afterParen := (e.dropWhile (fun c => c ≠ '(')).drop 1
  if afterParen.any (fun c => c = ')') then some (afterParen.takeWhile (fun c => c ≠ ')'))
  else none

/-- `::toupper` in the C locale, ASCII. -/
def toUpperC (c : Char) : Char := if 'a' ≤ c && c ≤ 'z' then Char.ofNat (c.toNat - 32) else c

/-- `::tolower` in the C locale, ASCII. -/
def toLowerC (c : Char) : Char := if 'A' ≤ c && c ≤ 'Z' then Char.ofNat (c.toNat + 32) else c

/-- The in-place index loop of the TITLE branch for positions `i ≥ 1`:
uppercase an alphabetic character following a space (`prev` is the value
already written at `i - 1`; writing uppercase never produces a space, so
this agrees with reading the mutated buffer as the code does). -/
def titleGo (prev : Char) : Str → Str
  | [] => []
  | c :: t =>
    let c2 := if prev = ' ' && isAlphaC c then toUpperC c else c
    c2 :: titleGo c2 t

/-- The TITLE transformation: lowercase everything, uppercase the first
character when alphabetic, then uppercase every alphabetic character
immediately following a space. -/
def titleCase (v : Str) : Str :=
  match v.map toLowerC with
  | [] => []
  | c :: t =>
    let c2 := if isAlphaC c then toUpperC c else c
    c2 :: titleGo c2 t

/-- A transformation rule: the tagged union parsed from one rules line
(`field_name` of the C++ struct is never assigned or read and is
omitted; for FIELD rules `condition` holds the expression text). -/
inductive RuleType
  | GLOBAL
  | FIELD
deriving DecidableEq, Repr

structure TransformationRule where
  type : RuleType
  condition : Str
  target_field : Str := []
deriving DecidableEq, Repr

/-- The general-expression path of `apply_rule` (reached when the
expression is neither a ternary nor a bare field name): extract quoted
literals, substitute field values, restore literals, then apply exactly
one of concatenation, multiplication, UPPER, LOWER, TITLE, or return the
substituted text as-is. -/
def generalExpr (expr : Str) (row headers : List Str) : Str :=
  let el := extractLiterals expr
  let e3 := restoreLiterals (substituteFields el.1 headers row el.2) el.2
  if (findSubstr (str " + ") e3).isSome then concatParts e3
  else if (findSubstr (str " * ") e3).isSome then mulExpr e3
  else if leadsWith (str "UPPER(") e3 then
    match funcContent e3 with
    | some v => v.map toUpperC
    | none => e3
  else if leadsWith (str "LOWER(") e3 then
    match funcContent e3 with
    | some v => v.map toLowerC
    | none => e3
  else if leadsWith (str "TITLE(") e3 then
    match funcContent e3 with
    | some v => titleCase v
    | none => e3
  else e3

/-- `TransformationEngine::apply_rule`: ternary expressions select and
quote-strip a branch; an expression equal to a header name with a value
present is that value; anything else goes through the general-expression
path (including a known header name whose row value is missing). -/
def apply_rule (rule : TransformationRule) (input_row input_headers : List Str) : Str :=
  match exprTernaryMatch rule.condition with
  | some (c, v1, v2) =>
    stripQuotes
      (if evaluate_simple_condition (trimWT c) input_row input_headers then trimWT v1
       else trimWT v2)
  | none =>
    match List.findIdx? (fun x => x = rule.condition) input_headers with
    | some idx =>
      match input_row.get? idx with
      | some v => v
      | none => generalExpr rule.condition input_row input_headers
    | none => generalExpr rule.condition input_row input_headers

/-- `TransformationEngine::parse_rule`: split on `|`, trim each part, and
build a GLOBAL or FIELD rule; `none` models the thrown exception for
fewer than three parts or an unknown leading keyword. -/
def parse_rule (rule_text : Str) : Option TransformationRule :=
  if ((getlineSplit '|' rule_text).map trimWT).length < 3 then none
  else if ((getlineSplit '|' rule_text).map trimWT).getD 0 [] = str "GLOBAL" then
    some { type := RuleType.GLOBAL,
           condition := ((getlineSplit '|' rule_text).map trimWT).getD 1 [], target_field := [] }
  else if ((getlineSplit '|' rule_text).map trimWT).getD 0 [] = str "FIELD" then
    some { type := RuleType.FIELD,
           condition := ((getlineSplit '|' rule_text).map trimWT).getD 2 [],
           target_field := ((getlineSplit '|' rule_text).map trimWT).getD 1 [] }
  else none

/-- The line loop of `TransformationEngine::load_rules` over the file's
lines: strip a `#` comment, skip blank lines, trim, parse, and on a parse
failure skip the line while recording it as warned-about.  Returns the
accepted rules and the warned lines, each in order. -/
def load_rules (lines : List Str) : List TransformationRule × List Str :=
  lines.foldl (fun acc line =>
    let l0 := line.takeWhile (fun c => c ≠ '#')
    if l0.isEmpty then acc
    else
      let l := trimWT l0
      if l.isEmpty then acc
      else
        match parse_rule l with
        | some r => (acc.1 ++ [r], acc.2)
        | none => (acc.1, acc.2 ++ [l])) ([], [])

/-- A loaded PSV table: name, column headers and records (each record an
ordered list of string fields). -/
structure PsvTable where
  name : Str
  headers : List Str
  records : List (List Str)
deriving DecidableEq, Repr

/-- The universal tabular result type. -/
structure QueryResult where
  headers : List Str
  rows : List (List Str)
deriving DecidableEq, Repr

/-- The `Database` aggregate, modelled as its list of tables (names are
unique: `load_table` overwrites by key). -/
abbrev Database := List PsvTable

/-- Insert into a list sorted by `std::string::operator<`. -/
def insertStr (x : Str) : List Str → List Str
  | [] => [x]
  | y :: ys => if strLtC x y then x :: y :: ys else y :: insertStr x ys

/-- Sort names with `std::sort` + `operator<`. -/
def sortStrs : List Str → List Str
  | [] => []
  | x :: xs => insertStr x (sortStrs xs)

/-- `Database::get_table_names`: all table names, sorted. -/
def tableNames (db : Database) : List Str := sortStrs (db.map (fun t => t.name))

/-- `Database::get_table`: lookup by name. -/
def getTable (db : Database) (n : Str) : Option PsvTable :=
  db.find? (fun t => t.name = n)

/-- `PsvTable::build_header_index`: the map assigns each header name its
index, later duplicates overwriting earlier ones. -/
def headerIndexLast (hs : List Str) (h : Str) : Option Nat :=
  hs.enum.foldl (fun acc p => if p.2 = h then some p.1 else acc) none

/-- `QueryEngine::select` with the default (empty) column list: all
columns of the table, each row padded with empty strings where the record
is short (fields are fetched through the header index). -/
def querySelect (t : PsvTable) : QueryResult :=
  { headers := t.headers,
    rows := t.records.map (fun rec =>
      t.headers.map (fun h =>
        match headerIndexLast t.headers h with
        | some i => if i < rec.length then rec.getD i [] else []
        | none => [])) }

/-- The whole-word reference search of `transform_data`: does `hay`
contain a whole-word occurrence of `needle` (boundaries not alphanumeric
or underscore)?  This is the `while ((pos = find(header, pos)))` loop that
advances `pos` by the header length after each failed boundary check. -/
def wordRefLoop (needle hay : Str) : Nat → Nat → Bool
  | 0, _ => false
  | fuel + 1, pos =>
    match findSubstrFrom needle hay pos with
    | none => false
    | some p =>
      let startOk : Bool := p == 0 || !isWordC (hay.getD (p - 1) ' ')
      let endOk : Bool := p + needle.length == hay.length || !isWordC (hay.getD (p + needle.length) ' ')
      if startOk && endOk then true else wordRefLoop needle hay fuel (p + needle.length)

/-- Whole-word containment of a header name in a rule expression. -/
def containsWordRef (needle hay : Str) : Bool :=
  wordRefLoop needle hay (hay.length + 1) 0

/-- The first scan of `transform_data`: does any FIELD rule's expression
reference (whole-word) any column of any loaded table? -/
def hasInputFieldReferences (db : Database) (rules : List TransformationRule) : Bool :=
  rules.any fun r =>
    match r.type with
    | RuleType.FIELD =>
      (tableNames db).any fun tn =>
        match getTable db tn with
        | none => false
        | some t => t.headers.any fun h => containsWordRef h r.condition
    | RuleType.GLOBAL => false

/-- The source-table pick: the first table (in sorted name order) for
which at least one FIELD rule references one of its columns
(`field_matches > 0`, each rule counted once per table). -/
def selectSourceTable (db : Database) (rules : List TransformationRule) : Option PsvTable :=
  (tableNames db).findSome? fun tn =>
    match getTable db tn with
    | none => none
    | some t =>
      if 0 < (rules.filter fun r =>
          match r.type with
          | RuleType.FIELD => t.headers.any fun h => containsWordRef h r.condition
          | RuleType.GLOBAL => false).length
      then some t else none

/-- Source selection as performed by `transform_data` once at least one
table is loaded: with a referencing FIELD rule present, select the first
matching table (its headers and `select`ed rows; `none` when no table
matches); with none, synthesise a zero-column single-empty-row source so
static rules produce one output row. -/
def sourceFor (db : Database) (rules : List TransformationRule) :
    Option (List Str × List (List Str)) :=
  if hasInputFieldReferences db rules then
    match selectSourceTable db rules with
    | some t => some (t.headers, (querySelect t).rows)
    | none => none
  else some ([], [[]])

/-- Does a row pass every GLOBAL rule (conjunctive filter, declaration
order)? -/
def passesGlobals (rules : List TransformationRule) (row headers : List Str) : Bool :=
  rules.all fun r =>
    match r.type with
    | RuleType.GLOBAL => evaluate_rule_condition r.condition row headers
    | RuleType.FIELD => true

/-- The first FIELD rule targeting a given output header (declaration
order, first match wins). -/
def firstFieldRuleFor (rules : List TransformationRule) (h : Str) : Option TransformationRule :=
  rules.find? fun r =>
    match r.type with
    | RuleType.FIELD => r.target_field = h
    | RuleType.GLOBAL => false

/-- Resolution of one output cell: the first matching FIELD rule's
expression value, else direct pass-through from a same-named source column
(first occurrence, empty when the row is short), else the empty string. -/
def projectCell (rules : List TransformationRule) (sourceHeaders row : List Str) (h : Str) : Str :=
  match firstFieldRuleFor rules h with
  | some r => apply_rule r row sourceHeaders
  | none =>
    match List.findIdx? (fun x => x = h) sourceHeaders with
    | some i => if i < row.length then row.getD i [] else []
    | none => []

/-- The unmapped-output scan: output headers with neither a FIELD rule nor
a same-named source column, in output order. -/
def unmappedFields (rules : List TransformationRule) (sourceHeaders outputHeaders : List Str) :
    List Str :=
  outputHeaders.foldl (fun acc h =>
    if (firstFieldRuleFor rules h).isSome then acc
    else if sourceHeaders.contains h then acc
    else acc ++ [h]) []

/-- `TransformationEngine::transform_data`: `none` models the `nullptr`
returned for empty output headers; an empty database or a failed source
selection yields a result with headers but no rows; otherwise the source
rows are filtered by the GLOBAL rules and projected column-wise. -/
def transform_data (db : Database) (rules : List TransformationRule)
    (output_headers : List Str) : Option QueryResult :=
  if output_headers.isEmpty then none
  else if (tableNames db).isEmpty then some { headers := output_headers, rows := [] }
  else
    match sourceFor db rules with
    | none => some { headers := output_headers, rows := [] }
    | some (sh, srows) =>
      let filtered := srows.foldl
        (fun acc row => if passesGlobals rules row sh then acc ++ [row] else acc) []
      some { headers := output_headers,
             rows := filtered.foldl
               (fun acc row => acc ++ [output_headers.map (projectCell rules sh row)]) [] }

/-- The headers enumerated by the single aggregated unmapped-fields
warning of a `transform_data` run (empty when the run exits before the
scan or nothing is unmapped). -/
def transformUnmapped (db : Database) (rules : List TransformationRule)
    (output_headers : List Str) : List Str :=
  if output_headers.isEmpty then []
  else if (tableNames db).isEmpty then []
  else
    match sourceFor db rules with
    | none => []
    | some (sh, _) => unmappedFields rules sh output_headers

/-- The warning blocks a `transform_data` run writes to the error stream:
one block naming all unmapped headers when there are any, none otherwise. -/
def transformWarnings (db : Database) (rules : List TransformationRule)
    (output_headers : List Str) : List (List Str) :=
  if (transformUnmapped db rules output_headers).isEmpty then []
  else [transformUnmapped db rules output_headers]

/-- The per-segment value of the concatenation branch: a non-empty
purely-whitespace segment contributes one space, any other segment its
space/tab-trimmed text. -/
def concatSeg (part : Str) : Str :=
  if !part.isEmpty && part.all isSpaceC then [' '] else trimWT part

/-- Plain splitting on a delimiter, keeping empty segments (so a trailing
delimiter yields a trailing empty segment and the empty string one empty
segment) — the splitting the specification's words describe. -/
def splitAll (d : Char) : Str → List Str
  | [] => [[]]
  | c :: t =>
    if c = d then [] :: splitAll d t
    else
      match splitAll d t with
      | [] => [[c]]
      | p :: ps => (c :: p) :: ps

/-- The specification's description of the concatenation step, taken at
its word: split on `+`, replace each purely-whitespace segment by a single
space and trim every other segment, then concatenate the non-empty
segments in order. -/
def concatSpec (s : Str) : Str :=
  (((splitAll '+' s).map (fun seg =>
      if seg ≠ [] ∧ seg.all isSpaceC = true then [' '] else trimWT seg)).filter
    (fun seg => !seg.isEmpty)).flatten

/-- The numeric value of a parsed decimal, used to state what "compare
numerically" means. -/
def decToRat (d : Dec) : ℚ := (d.1 : ℚ) * 10 ^ d.2

/-- The specification's numeric comparison, on exact numeric values. -/
def ratCmp (op : Str) (x y : ℚ) : Bool :=
  if op = str "=" then decide (x = y)
  else if op = str "!=" then decide (x ≠ y)
  else if op = str ">" then decide (y < x)
  else if op = str "<" then decide (x < y)
  else if op = str ">=" then decide (y ≤ x)
  else if op = str "<=" then decide (x ≤ y)
  else false

/-- The hypotheses under which a double-quoted expression `"lit"` is a
plain literal: no quote or question mark inside (so neither literal
extraction past the first pair nor the ternary matcher fires), no
concatenation or multiplication marker, and no function-call head. -/
def plainLit (lit : Str) : Bool :=
  !(lit.any (fun c => c = '"' || c = '\'' || c = '?')) &&
  (findSubstr (str " + ") lit).isNone && (findSubstr (str " * ") lit).isNone &&
  !leadsWith (str "UPPER(") lit && !leadsWith (str "LOWER(") lit &&
  !leadsWith (str "TITLE(") lit

example : evaluate_simple_condition (str "salary >= '9'") [str "75000"] [str "salary"] = true := by decide
example : evaluate_simple_condition (str "name >= '9'") [str "Abe"] [str "name"] = true := by decide
example : evaluate_simple_condition (str "salary >= '80000'") [str "75000"] [str "salary"] = false := by decide
example : evaluate_simple_condition (str "x = 'a'") [str "b"] [str "x"] = false := by decide
example : evaluate_simple_condition (str "y = 'a'") [str "a"] [str "x"] = false := by decide
example : stodParse (str "75000") = some (75000, 0) := by decide
example : stodParse (str "Abe") = none := by decide
example : stodParse (str "-1.5e2") = some (-15, 1) := by decide
example : getlineSplit '|' (str "a|b|") = [str "a", str "b"] := by decide
example : getlineSplit '+' (str "Hello,   +  x") = [str "Hello,   ", str "  x"] := by decide
example : trimWT (str "  a b  ") = str "a b" := by decide
example :
    apply_rule { type := RuleType.FIELD, condition := str "\"Hello, \" + name + \"!\"" }
      [str "Ann"] [str "name"] = str "Hello,Ann!" := by decide
example :
    apply_rule { type := RuleType.FIELD, condition := str "first_name + \" \" + last_name" }
      [str "John", str "Doe"] [str "first_name", str "last_name"] = str "John Doe" := by decide
example :
    apply_rule { type := RuleType.FIELD, condition := str "salary >= '75000' ? 'High' : 'Low'" }
      [str "75000"] [str "salary"] = str "High" := by decide
example :
    apply_rule { type := RuleType.FIELD, condition := str "salary >= '75000' ? 'High' : 'Low'" }
      [str "65000"] [str "salary"] = str "Low" := by decide
example :
    apply_rule { type := RuleType.FIELD, condition := str "age * 2" }
      [str "30"] [str "age"] = str "60.000000" := by decide
example :
    apply_rule { type := RuleType.FIELD, condition := str "UPPER(first_name)" }
      [str "John"] [str "first_name"] = str "JOHN" := by decide
example :
    apply_rule { type := RuleType.FIELD, condition := str "TITLE(\"bob o'neil\")" }
      [] [] = str "Bob O'neil" := by decide
example :
    apply_rule { type := RuleType.FIELD, condition := str "salary" }
      [str "75000"] [str "salary"] = str "75000" := by decide
example : exprTernaryMatch (str "x = 'a' ?   : y") = some (str "x = 'a'", [' '], ['y']) := by decide
example :
    apply_rule { type := RuleType.FIELD, condition := str "x = 'a' ?   : y" }
      [str "a"] [str "x"] = [] := by decide
example :
    evaluate_rule_condition (str "salary >= '75000' ? ACCEPT : REJECT")
      [str "85000"] [str "salary"] = true := by decide
example :
    evaluate_rule_condition (str "salary >= '75000' ? ACCEPT : REJECT")
      [str "65000"] [str "salary"] = false := by decide
example :
    evaluate_rule_condition (str "salary >= '75000' ? REJECT : ACCEPT")
      [str "65000"] [str "salary"] = true := by decide
example :
    parse_rule (str "FIELD|employee_name|first_name + \" \" + last_name|Combine names") =
      some { type := RuleType.FIELD, condition := str "first_name + \" \" + last_name",
             target_field := str "employee_name" } := by decide
example :
    parse_rule (str "FIELD|name|value") =
      some { type := RuleType.FIELD, condition := str "value", target_field := str "name" } := by
  decide
example : parse_rule (str "FIELD|name") = none := by decide
example : parse_rule (str "INVALID|rule|syntax") = none := by decide
example :
    load_rules [str "FIELD|a|\"x\"|d", str "BADKEY|p|q", str "GLOBAL|n = 'y'|d"] =
      ([{ type := RuleType.FIELD, condition := str "\"x\"", target_field := str "a" },
        { type := RuleType.GLOBAL, condition := str "n = 'y'", target_field := [] }],
       [str "BADKEY|p|q"]) := by decide
example :
    transform_data
      [{ name := str "employees", headers := [str "first_name", str "salary"],
         records := [[str "John", str "75000"], [str "Jane", str "65000"],
                     [str "Bob", str "85000"]] }]
      [{ type := RuleType.GLOBAL, condition := str "salary >= '70000'" },
       { type := RuleType.FIELD, condition := str "first_name", target_field := str "who" },
       { type := RuleType.FIELD, condition := str "salary", target_field := str "pay" }]
      [str "who", str "pay"] =
    some { headers := [str "who", str "pay"],
           rows := [[str "John", str "75000"], [str "Bob", str "85000"]] } := by decide
example :
    transform_data []
      [{ type := RuleType.FIELD, condition := str "\"Hi\"", target_field := str "greeting" }]
      [str "greeting"] =
    some { headers := [str "greeting"], rows := [] } := by decide
example :
    transform_data [{ name := str "t", headers := [str "x"], records := [[str "1"]] }]
      [{ type := RuleType.FIELD, condition := str "\"Hi\"", target_field := str "greeting" }]
      [str "greeting"] =
    some { headers := [str "greeting"], rows := [[str "Hi"]] } := by decide
example :
    transform_data [{ name := str "t", headers := [str "x"], records := [[str "1"]] }]
      [{ type := RuleType.FIELD, condition := str "x", target_field := str "a" }]
      [str "a", str "b"] =
    some { headers := [str "a", str "b"], rows := [[str "1", []]] } := by decide
example :
    transformUnmapped [{ name := str "t", headers := [str "x"], records := [[str "1"]] }]
      [{ type := RuleType.FIELD, condition := str "x", target_field := str "a" }]
      [str "a", str "b"] = [str "b"] := by decide
example :
    transformWarnings [{ name := str "t", headers := [str "x"], records := [[str "1"]] }]
      [{ type := RuleType.FIELD, condition := str "x", target_field := str "a" }]
      [str "a", str "b"] = [[str "b"]] := by decide

/-! ## Helper lemmas -/

theorem foldlFilterPush {α : Type} (p : α → Bool) :
    ∀ (l acc : List α),
      l.foldl (fun a x => if p x then a ++ [x] else a) acc = acc ++ l.filter p := by
  intro l
  induction l with
  | nil => intro acc; simp
  | cons x xs ih =>
    intro acc
    cases h : p x <;> simp [h, ih, List.filter_cons, List.append_assoc]

theorem foldlMapPush {α β : Type} (f : α → β) :
    ∀ (l : List α) (acc : List β),
      l.foldl (fun a x => a ++ [f x]) acc = acc ++ l.map f := by
  intro l
  induction l with
  | nil => intro acc; simp
  | cons x xs ih => intro acc; simp [ih, List.append_assoc]

theorem leadsWith_refl : ∀ l : Str, leadsWith l l = true := by
  intro l
  induction l with
  | nil => rfl
  | cons a as ih => simp [leadsWith, ih]

theorem leadsWith_append (l r : Str) : leadsWith l (l ++ r) = true := by
  induction l with
  | nil => rfl
  | cons a as ih => simp [leadsWith, ih]

theorem mem_of_leadsWith : ∀ {n h : Str}, leadsWith n h = true → ∀ c ∈ n, c ∈ h := by
  intro n
  induction n with
  | nil => intro h _ c hc; cases hc
  | cons a as ih =>
    intro h hl c hc
    cases h with
    | nil => simp [leadsWith] at hl
    | cons b bs =>
      simp only [leadsWith, Bool.and_eq_true, decide_eq_true_eq] at hl
      rcases List.mem_cons.mp hc with hc | hc
      · rw [hc, hl.1]; exact List.mem_cons_self b bs
      · exact List.mem_cons_of_mem _ (ih hl.2 c hc)

theorem findSubstr_subset :
    ∀ {h : Str} {n : Str} {i : Nat}, findSubstr n h = some i → ∀ c ∈ n, c ∈ h := by
  intro h
  induction h with
  | nil =>
    intro n i hf c hc
    simp only [findSubstr] at hf
    cases hn : n.isEmpty
    · simp [hn] at hf
    · rw [List.isEmpty_iff] at hn; subst hn; cases hc
  | cons b bs ih =>
    intro n i hf c hc
    simp only [findSubstr] at hf
    by_cases hl : leadsWith n (b :: bs) = true
    · exact mem_of_leadsWith hl c hc
    · simp only [hl] at hf
      rw [Bool.not_eq_true] at hl
      simp only [hl, Bool.false_eq_true, if_false, Option.map_eq_some'] at hf
      obtain ⟨j, hj, -⟩ := hf
      exact List.mem_cons_of_mem _ (ih hj c hc)

theorem findSubstr_self (l : Str) : findSubstr l l = some 0 := by
  cases l with
  | nil => rfl
  | cons a as => simp [findSubstr, leadsWith_refl]

theorem takeWhile_append_all {p : Char → Bool} :
    ∀ {l : Str}, (∀ c ∈ l, p c = true) → ∀ r, (l ++ r).takeWhile p = l ++ r.takeWhile p := by
  intro l
  induction l with
  | nil => intro _ r; rfl
  | cons a as ih =>
    intro hl r
    have ha : p a = true := hl a (by simp)
    simp [List.takeWhile_cons, ha, ih (fun c hc => hl c (by simp [hc])) r]

theorem dropWhile_append_all {p : Char → Bool} :
    ∀ {l : Str}, (∀ c ∈ l, p c = true) → ∀ r, (l ++ r).dropWhile p = r.dropWhile p := by
  intro l
  induction l with
  | nil => intro _ r; rfl
  | cons a as ih =>
    intro hl r
    have ha : p a = true := hl a (by simp)
    simp only [List.cons_append, List.dropWhile_cons, ha]
    exact ih (fun c hc => hl c (by simp [hc])) r

theorem dropWhile_nil_of_all {p : Char → Bool} {l : Str}
    (h : ∀ c ∈ l, p c = true) : l.dropWhile p = [] := by
  rw [List.dropWhile_eq_nil_iff]
  exact h

theorem trimWT_ne_nil {l : Str} (h : ∃ c ∈ l, isWT c = false) : trimWT l ≠ [] := by
  obtain ⟨c, hc, hwt⟩ := h
  intro hnil
  unfold trimWT dropTrailWT at hnil
  have h2 : (l.dropWhile isWT).reverse.dropWhile isWT = [] := by
    cases he : (l.dropWhile isWT).reverse.dropWhile isWT with
    | nil => rfl
    | cons x xs => rw [he] at hnil; simp at hnil
  have h3 : ∀ x ∈ (l.dropWhile isWT).reverse, isWT x = true :=
    List.dropWhile_eq_nil_iff.mp h2
  have h4 : ∀ x ∈ l.dropWhile isWT, isWT x = true := by
    intro x hx; exact h3 x (List.mem_reverse.mpr hx)
  have h5 : c ∈ l.takeWhile isWT ++ l.dropWhile isWT := by
    rw [List.takeWhile_append_dropWhile]; exact hc
  rcases List.mem_append.mp h5 with h6 | h6
  · exact absurd (List.mem_takeWhile_imp h6) (by simp [hwt])
  · exact absurd (h4 c h6) (by simp [hwt])

theorem dropWhile_head_false {p : Char → Bool} :
    ∀ {l : Str} {x : Char} {xs : Str}, l.dropWhile p = x :: xs → p x = false := by
  intro l
  induction l with
  | nil => intro x xs h; cases h
  | cons a as ih =>
    intro x xs h
    rw [List.dropWhile_cons] at h
    by_cases ha : p a = true
    · rw [if_pos ha] at h; exact ih h
    · rw [Bool.not_eq_true] at ha
      rw [ha] at h
      simp only [Bool.false_eq_true, if_false, List.cons.injEq] at h
      rw [← h.1]; exact ha

theorem countOcc_pos_of_mem {c : Char} {l : Str} (h : c ∈ l) : 1 ≤ countOcc c l := by
  unfold countOcc
  have : c ∈ l.filter (fun x => x = c) := List.mem_filter.mpr ⟨h, by simp⟩
  exact List.length_pos.mpr (fun hnil => by rw [hnil] at this; cases this)

theorem countOcc_le_of_suffix {c : Char} {l1 l2 : Str} (h : l1 <:+ l2) :
    countOcc c l1 ≤ countOcc c l2 := by
  unfold countOcc
  exact (h.sublist.filter _).length_le

theorem countOcc_cons_self (c : Char) (t : Str) :
    countOcc c (c :: t) = countOcc c t + 1 := by
  unfold countOcc
  simp [List.filter_cons]

theorem splitFirstPair_none_of_not_mem {q : Char} {s : Str}
    (h : ∀ c ∈ s, c ≠ q) : splitFirstPair q s = none := by
  unfold splitFirstPair
  have h0 : s.dropWhile (fun c => !decide (c = q)) = [] :=
    dropWhile_nil_of_all (fun c hc => by simp [h c hc])
  simp [h0]

theorem splitFirstPair_none_of_count {s : Str} {q : Char}
    (hcount : countOcc q s ≤ 1) : splitFirstPair q s = none := by
  unfold splitFirstPair
  cases h1 : s.dropWhile (fun c => !decide (c = q)) with
  | nil => simp [h1]
  | cons b rest =>
    cases h2 : rest.dropWhile (fun c => !decide (c = q)) with
    | nil => simp [h1, h2]
    | cons c2 post =>
      exfalso
      have hb : b = q := by
        have := dropWhile_head_false h1
        simpa using this
      have hc2 : c2 = q := by
        have := dropWhile_head_false h2
        simpa using this
      have hqrest : q ∈ rest := by
        have hmem : c2 ∈ rest.dropWhile (fun c => !decide (c = q)) := by rw [h2]; simp
        rw [← hc2]
        exact (List.dropWhile_suffix _).subset hmem
      have h3 : countOcc q (b :: rest) ≤ countOcc q s :=
        countOcc_le_of_suffix (h1 ▸ List.dropWhile_suffix _)
      rw [hb, countOcc_cons_self] at h3
      have h4 := countOcc_pos_of_mem hqrest
      omega

theorem insertStr_ne_nil (x : Str) : ∀ l, insertStr x l ≠ [] := by
  intro l
  cases l with
  | nil => simp [insertStr]
  | cons y ys =>
    unfold insertStr
    cases strLtC x y <;> simp

theorem tableNames_ne_nil {db : Database} (h : db ≠ []) : tableNames db ≠ [] := by
  unfold tableNames
  cases db with
  | nil => exact absurd rfl h
  | cons t ts => exact insertStr_ne_nil _ _

theorem passesGlobals_of_no_globals {rules : List TransformationRule}
    (h : ∀ r ∈ rules, r.type ≠ RuleType.GLOBAL) (row headers : List Str) :
    passesGlobals rules row headers = true := by
  unfold passesGlobals
  rw [List.all_eq_true]
  intro r hr
  cases ht : r.type with
  | GLOBAL => exact absurd ht (h r hr)
  | FIELD => simp [ht]

theorem passesGlobals_iff (rules : List TransformationRule) (row headers : List Str) :
    passesGlobals rules row headers = true ↔
      ∀ r ∈ rules, r.type = RuleType.GLOBAL →
        evaluate_rule_condition r.condition row headers = true := by
  unfold passesGlobals
  rw [List.all_eq_true]
  constructor
  · intro hall r hr htype
    have := hall r hr
    rw [htype] at this
    exact this
  · intro hall r hr
    cases ht : r.type with
    | GLOBAL => exact hall r hr ht
    | FIELD => simp

theorem unmappedFields_eq (rules : List TransformationRule) (sh : List Str) :
    ∀ (outH acc : List Str),
      outH.foldl (fun acc h =>
        if (firstFieldRuleFor rules h).isSome then acc
        else if sh.contains h then acc
        else acc ++ [h]) acc =
      acc ++ outH.filter (fun h => !(firstFieldRuleFor rules h).isSome && !sh.contains h) := by
  intro outH
  induction outH with
  | nil => intro acc; simp
  | cons h hs ih =>
    intro acc
    simp only [List.foldl_cons, List.filter_cons]
    by_cases h1 : (firstFieldRuleFor rules h).isSome = true
    · rw [if_pos h1, ih]
      have hc : (!(firstFieldRuleFor rules h).isSome && !sh.contains h) = false := by
        rw [h1]; rfl
      rw [hc]
      simp
    · rw [if_neg h1]
      by_cases h2 : sh.contains h = true
      · rw [if_pos h2, ih]
        have hc : (!(firstFieldRuleFor rules h).isSome && !sh.contains h) = false := by
          rw [h2]; simp
        rw [hc]
        simp
      · rw [if_neg h2, ih]
        have hc : (!(firstFieldRuleFor rules h).isSome && !sh.contains h) = true := by
          rw [Bool.not_eq_true] at h1 h2
          rw [h1, h2]
          rfl
        rw [hc]
        simp [List.append_assoc]

theorem transform_data_rows {db : Database} {rules : List TransformationRule}
    {outH sh : List Str} {srows : List (List Str)} {res : QueryResult}
    (hout : outH ≠ []) (hnames : tableNames db ≠ [])
    (hsrc : sourceFor db rules = some (sh, srows))
    (hres : transform_data db rules outH = some res) :
    res.headers = outH ∧
      res.rows = (srows.filter (fun row => passesGlobals rules row sh)).map
        (fun row => outH.map (projectCell rules sh row)) := by
  unfold transform_data at hres
  rw [List.isEmpty_eq_false_iff_exists_mem.mpr] at hres
  · rw [List.isEmpty_eq_false_iff_exists_mem.mpr] at hres
    · rw [hsrc] at hres
      simp only [Bool.false_eq_true, if_false, Option.some.injEq] at hres
      subst hres
      constructor
      · rfl
      · simp only [foldlFilterPush, foldlMapPush, List.nil_append]
    · cases hn : tableNames db with
      | nil => exact absurd hn hnames
      | cons a l => exact ⟨a, by simp [hn]⟩
  · cases ho : outH with
    | nil => exact absurd ho hout
    | cons a l => exact ⟨a, by simp [ho]⟩

theorem foldlAppendJoin {α : Type} (g : α → Str) :
    ∀ (l : List α) (acc : Str),
      l.foldl (fun a x => a ++ g x) acc = acc ++ (l.map g).flatten := by
  intro l
  induction l with
  | nil => intro acc; simp
  | cons x xs ih => intro acc; simp [ih, List.append_assoc]

theorem concatParts_eq_join (s : Str) :
    concatParts s = ((getlineSplit '+' s).map concatSeg).flatten := by
  unfold concatParts
  have body : ∀ (l : List Str) (acc : Str),
      l.foldl (fun acc part =>
        if !part.isEmpty && part.all isSpaceC then acc ++ [' ']
        else if (trimWT part).isEmpty then acc else acc ++ trimWT part) acc =
      acc ++ (l.map concatSeg).flatten := by
    intro l
    induction l with
    | nil => intro acc; simp
    | cons x xs ih =>
      intro acc
      simp only [List.foldl_cons, List.map_cons, List.flatten_cons]
      by_cases h1 : (!x.isEmpty && x.all isSpaceC) = true
      · rw [if_pos h1, ih]
        have hx : concatSeg x = [' '] := by unfold concatSeg; rw [if_pos h1]
        rw [hx, List.append_assoc]
      · rw [if_neg h1, ih]
        have hx : concatSeg x = trimWT x := by unfold concatSeg; rw [if_neg h1]
        by_cases h2 : (trimWT x).isEmpty = true
        · rw [if_pos h2, hx, List.isEmpty_iff.mp h2]
          simp
        · rw [if_neg h2, hx, List.append_assoc]
  exact body _ []

theorem splitAll_ne_nil (d : Char) : ∀ s : Str, splitAll d s ≠ [] := by
  intro s
  cases s with
  | nil => simp [splitAll]
  | cons c t =>
    unfold splitAll
    by_cases hc : c = d
    · simp [hc]
    · rw [if_neg hc]
      cases h : splitAll d t <;> simp

theorem splitAll_getline (d : Char) :
    ∀ s : Str, splitAll d s = getlineSplit d s ++ [[]] ∨ splitAll d s = getlineSplit d s := by
  intro s
  induction s with
  | nil => exact Or.inl rfl
  | cons c t ih =>
    by_cases hc : c = d
    · rcases ih with h | h
      · exact Or.inl (by simp [splitAll, getlineSplit, hc, h])
      · exact Or.inr (by simp [splitAll, getlineSplit, hc, h])
    · rcases ih with h | h
      · cases hg : getlineSplit d t with
        | nil =>
          rw [hg] at h
          simp only [List.nil_append] at h
          exact Or.inr (by simp [splitAll, getlineSplit, hc, h, hg])
        | cons q qs =>
          rw [hg] at h
          left
          simp only [splitAll, getlineSplit, if_neg hc, h, hg, List.cons_append]
      · cases hg : getlineSplit d t with
        | nil =>
          rw [hg] at h
          exact absurd h (splitAll_ne_nil d t)
        | cons q qs =>
          rw [hg] at h
          right
          simp only [splitAll, getlineSplit, if_neg hc, h, hg]

theorem join_filter_nonempty (l : List Str) :
    (l.filter (fun seg => !seg.isEmpty)).flatten = l.flatten := by
  induction l with
  | nil => rfl
  | cons x xs ih =>
    rw [List.filter_cons]
    by_cases hx : (!x.isEmpty) = true
    · simp [hx, ih]
    · have : x = [] := by
        rcases x with _ | ⟨a, t⟩
        · rfl
        · simp at hx
      simp [this, hx, ih]

theorem concatSeg_eq_specSeg (seg : Str) :
    concatSeg seg = if seg ≠ [] ∧ seg.all isSpaceC = true then [' '] else trimWT seg := by
  unfold concatSeg
  by_cases h : (!seg.isEmpty && seg.all isSpaceC) = true
  · rw [if_pos h]
    rw [Bool.and_eq_true, Bool.not_eq_true', List.isEmpty_eq_false_iff_exists_mem] at h
    rw [if_pos (And.intro (by rintro rfl; obtain ⟨x, hx⟩ := h.1; cases hx) h.2)]
  · rw [if_neg h]
    rw [if_neg]
    intro ⟨h1, h2⟩
    apply h
    rw [Bool.and_eq_true, Bool.not_eq_true', List.isEmpty_eq_false_iff_exists_mem]
    rcases seg with _ | ⟨a, t⟩
    · exact absurd rfl h1
    · exact ⟨⟨a, by simp⟩, h2⟩

theorem concatParts_conform (s : Str) : concatParts s = concatSpec s := by
  rw [concatParts_eq_join]
  unfold concatSpec
  rw [join_filter_nonempty]
  have hmap : ∀ l : List Str,
      l.map concatSeg =
      l.map (fun seg => if seg ≠ [] ∧ seg.all isSpaceC = true then [' '] else trimWT seg) :=
    fun l => List.map_congr_left (fun seg _ => concatSeg_eq_specSeg seg)
  rw [← hmap]
  rcases splitAll_getline '+' s with h | h
  · rw [h, List.map_append, List.flatten_append]
    have : concatSeg [] = [] := rfl
    simp [this]
  · rw [h]

/-- C2 (counterexample): `apply_rule` on the expression
`"Hello, " + name + "!"` with `name = "Ann"` does not return
`"Hello, Ann!"` — liters are restored before the `+`-split, so the
trailing space of the quoted literal sits at a segment boundary and is
trimmed, giving `"Hello,Ann!"`. -/
theorem C2_counterexample :
    apply_rule { type := RuleType.FIELD, condition := str "\"Hello, \" + name + \"!\"",
                 target_field := str "greeting" } [str "Ann"] [str "name"] ≠
      str "Hello, Ann!" := by decide

/-- C2 (amended): the round-trip yields exactly `"Hello,Ann!"`, and in
general the concatenation branch is the specification's split/trim/join:
split on `+`, each purely-whitespace segment contributes one space, every
other segment is trimmed, and the non-empty segments are concatenated in
order (quoted literal contents having been protected from field
substitution by placeholder tokens). -/
theorem C2_concatenation :
    apply_rule { type := RuleType.FIELD, condition := str "\"Hello, \" + name + \"!\"",
                 target_field := str "greeting" } [str "Ann"] [str "name"] = str "Hello,Ann!" ∧
    ∀ s : Str, concatParts s = concatSpec s :=
  ⟨by decide, concatParts_conform⟩

/-- C5: condition evaluation is fail-closed — an unmatched condition text,
a field name absent from the headers, and a row shorter than the field's
header position each make `evaluate_simple_condition` return `false` (the
function is total by construction, so evaluation never raises). -/
theorem C5_fail_closed :
    (∀ cond row headers, simpleCondParse cond = none →
       evaluate_simple_condition cond row headers = false) ∧
    (∀ cond f op lit row headers, simpleCondParse cond = some (f, op, lit) →
       List.findIdx? (fun x => x = f) headers = none →
       evaluate_simple_condition cond row headers = false) ∧
    (∀ cond f op lit i row headers, simpleCondParse cond = some (f, op, lit) →
       List.findIdx? (fun x => x = f) headers = some i →
       row.length ≤ i →
       evaluate_simple_condition cond row headers = false) := by
  refine ⟨?_, ?_, ?_⟩
  · intro cond row headers h
    simp only [evaluate_simple_condition, h]
  · intro cond f op lit row headers h1 h2
    simp only [evaluate_simple_condition, h1, h2]
  · intro cond f op lit i row headers h1 h2 h3
    simp only [evaluate_simple_condition, h1, h2, List.get?_eq_none.mpr h3]

/-- C5 witness: the three fail-closed cases at concrete inputs — an
unparseable condition, a missing field, and a too-short row. -/
theorem C5_witness :
    evaluate_simple_condition (str "no grammar here") [] [] = false ∧
    evaluate_simple_condition (str "y = 'a'") [str "v"] [str "x"] = false ∧
    evaluate_simple_condition (str "x = 'a'") [] [str "x"] = false :=
  ⟨C5_fail_closed.1 _ _ _ (by decide),
   C5_fail_closed.2.1 _ (str "y") (str "=") (str "a") _ _ (by decide) (by decide),
   C5_fail_closed.2.2 _ (str "x") (str "=") (str "a") 0 _ _ (by decide) (by decide) (by decide)⟩

/-- C8: a rules line (comment-stripped, trimmed) fails to parse exactly
when its `getline`-split pipe fields number fewer than three or the
leading keyword is neither `GLOBAL` nor `FIELD`; and a rules file with one
bad line among two good ones loads exactly the two good rules, the bad
line skipped with a warning and no abort. -/
theorem C8_malformed_rules :
    (∀ line : Str, parse_rule line = none ↔
       (((getlineSplit '|' line).map trimWT).length < 3 ∨
        (((getlineSplit '|' line).map trimWT).getD 0 [] ≠ str "GLOBAL" ∧
         ((getlineSplit '|' line).map trimWT).getD 0 [] ≠ str "FIELD"))) ∧
    load_rules [str "FIELD|a|\"x\"|d # note", str "BADKEY|p|q", str "GLOBAL|n = 'y'|d"] =
      ([{ type := RuleType.FIELD, condition := str "\"x\"", target_field := str "a" },
        { type := RuleType.GLOBAL, condition := str "n = 'y'", target_field := [] }],
       [str "BADKEY|p|q"]) := by
  constructor
  · intro line
    unfold parse_rule
    by_cases h1 : ((getlineSplit '|' line).map trimWT).length < 3
    · rw [if_pos h1]
      exact iff_of_true rfl (Or.inl h1)
    · rw [if_neg h1]
      by_cases h2 : ((getlineSplit '|' line).map trimWT).getD 0 [] = str "GLOBAL"
      · rw [if_pos h2]
        exact iff_of_false (by simp) (by rintro (h | ⟨hg, -⟩); exacts [h1 h, hg h2])
      · rw [if_neg h2]
        by_cases h3 : ((getlineSplit '|' line).map trimWT).getD 0 [] = str "FIELD"
        · rw [if_pos h3]
          exact iff_of_false (by simp) (by rintro (h | ⟨-, hf⟩); exacts [h1 h, hf h3])
        · rw [if_neg h3]
          exact iff_of_true rfl (Or.inr ⟨h2, h3⟩)
  · decide

/-- C1 (counterexample): with zero tables loaded, `transform_data` returns
early with headers and zero rows, not the one-row result the claim
asserts. -/
theorem C1_counterexample :
    ¬ ∀ res, transform_data []
        [{ type := RuleType.FIELD, condition := str "\"Hi\"", target_field := str "greeting" }]
        [str "greeting"] = some res → res.rows.length = 1 := by
  intro h
  have := h { headers := [str "greeting"], rows := [] } (by decide)
  simp at this

/-- C10 (counterexample): the FIELD ternary `x = 'a' ?   : y` matches the
ternary grammar with a purely-whitespace true branch, the condition
selects that branch, and it is empty after trimming — so the
quote-stripping step runs on an empty string (reading the terminating
null), and the rule produces the empty string. -/
theorem C10_counterexample :
    exprTernaryMatch (str "x = 'a' ?   : y") = some (str "x = 'a'", [' '], ['y']) ∧
    evaluate_simple_condition (trimWT (str "x = 'a'")) [str "a"] [str "x"] = true ∧
    trimWT [' '] = [] ∧
    apply_rule { type := RuleType.FIELD, condition := str "x = 'a' ?   : y",
                 target_field := str "o" } [str "a"] [str "x"] = [] := by decide

theorem ternScanC_no_q : ∀ {s : Str}, (∀ ch ∈ s, ch ≠ '?') → ∀ pre, ternScanC pre s = none := by
  intro s
  induction s with
  | nil => intro _ pre; rfl
  | cons ch t ih =>
    intro h pre
    unfold ternScanC
    rw [if_neg (h ch (by simp))]
    exact ih (fun c hc => h c (by simp [hc])) _

theorem ternScanE_no_q : ∀ {s : Str}, (∀ ch ∈ s, ch ≠ '?') → ∀ pre, ternScanE pre s = none := by
  intro s
  induction s with
  | nil => intro _ pre; rfl
  | cons ch t ih =>
    intro h pre
    unfold ternScanE
    rw [if_neg (h ch (by simp))]
    exact ih (fun c hc => h c (by simp [hc])) _

theorem ternScanC_through : ∀ {c : Str}, (∀ ch ∈ c, ch ≠ '?') →
    ∀ pre rest, ternScanC pre (c ++ rest) = ternScanC (c.reverse ++ pre) rest := by
  intro c
  induction c with
  | nil => intro _ pre rest; rfl
  | cons a as ih =>
    intro h pre rest
    have ha : a ≠ '?' := h a (by simp)
    rw [List.cons_append]
    simp only [ternScanC]
    rw [if_neg ha, ih (fun c hc => h c (by simp [hc])) (a :: pre) rest,
      List.reverse_cons, List.append_assoc, List.singleton_append]

theorem ternScanE_through : ∀ {c : Str}, (∀ ch ∈ c, ch ≠ '?') →
    ∀ pre rest, ternScanE pre (c ++ rest) = ternScanE (c.reverse ++ pre) rest := by
  intro c
  induction c with
  | nil => intro _ pre rest; rfl
  | cons a as ih =>
    intro h pre rest
    have ha : a ≠ '?' := h a (by simp)
    rw [List.cons_append]
    simp only [ternScanE]
    rw [if_neg ha, ih (fun c hc => h c (by simp [hc])) (a :: pre) rest,
      List.reverse_cons, List.append_assoc, List.singleton_append]

theorem rev_takeWhile_nil_of_last {c : Str} (hne : c ≠ [])
    (hlast : isSpaceC (c.getLastD '?') = false) :
    c.reverse.takeWhile isSpaceC = [] := by
  cases hr : c.reverse with
  | nil => exact absurd (by simpa using congrArg List.reverse hr) hne
  | cons b bs =>
    have hb : c.getLast? = some b := by
      rw [← List.head?_reverse, hr]; rfl
    have hbd : c.getLastD '?' = b := by
      rw [List.getLastD_eq_getLast?, hb]; rfl
    have hb' : isSpaceC b = false := by rw [← hbd]; exact hlast
    rw [List.takeWhile_cons, hb']
    simp

theorem lazyHeadCapture_clean {c : Str} (hne : c ≠ []) (hdot : c.all isDotC = true)
    (hrev : c.reverse.takeWhile isSpaceC = []) :
    lazyHeadCapture (' ' :: c.reverse) = some c := by
  have hw : ((' ' :: c.reverse).takeWhile isSpaceC).length = 1 := by
    rw [List.takeWhile_cons, if_pos (show isSpaceC ' ' = true from by decide), hrev]
    rfl
  have hcpos : 1 ≤ c.length := by
    cases c with
    | nil => exact absurd rfl hne
    | cons x xs => simp
  unfold lazyHeadCapture
  rw [if_neg (show ¬((' ' :: c.reverse).isEmpty = true) from by simp)]
  simp only [hw, List.length_cons, List.length_reverse]
  have e1 : c.length + 1 - 1 = c.length := by omega
  rw [e1]
  have e2 : max c.length 1 = c.length := by omega
  rw [e2]
  have e3 : c.length + 1 - c.length = 1 := by omega
  rw [e3]
  have e4 : (' ' :: c.reverse).drop 1 = c.reverse := rfl
  rw [e4, List.reverse_reverse, if_pos hdot]

theorem tailAfterColon_ne_nil {rest2 g3 : Str} (h : tailAfterColon rest2 = some g3) :
    g3 ≠ [] := by
  unfold tailAfterColon at h
  by_cases hrem : (rest2.dropWhile isSpaceC).isEmpty = true
  · rw [if_pos hrem] at h
    obtain ⟨k, hk, hbody⟩ := List.exists_of_findSome?_eq_some h
    have hk' : 1 ≤ k ∧ k < 1 + rest2.length := List.mem_range'_1.mp hk
    by_cases hall : (rest2.drop (rest2.length - k)).all isDotC = true
    · rw [if_pos hall] at hbody
      cases hbody
      have : (rest2.drop (rest2.length - k)).length = k := by
        rw [List.length_drop]
        omega
      intro hnil
      rw [hnil] at this
      simp at this
      omega
    · rw [if_neg hall] at hbody
      cases hbody
  · rw [if_neg hrem] at h
    by_cases hall : (rest2.dropWhile isSpaceC).all isDotC = true
    · rw [if_pos hall] at h
      cases h
      rw [Bool.not_eq_true, List.isEmpty_eq_false_iff_exists_mem] at hrem
      obtain ⟨x, hx⟩ := hrem
      intro hnil
      rw [hnil] at hx
      cases hx
    · rw [if_neg hall] at h
      cases h

theorem exprTernTail_branches {after g2 g3 : Str}
    (h : exprTernTail after = some (g2, g3)) : g2 ≠ [] ∧ g3 ≠ [] := by
  unfold exprTernTail at h
  obtain ⟨m, -, hinner⟩ := List.exists_of_findSome?_eq_some h
  obtain ⟨L, hL, hbody⟩ := List.exists_of_findSome?_eq_some hinner
  have hL' : 1 ≤ L ∧ L < 1 + (after.drop m).length := List.mem_range'_1.mp hL
  by_cases hall : ((after.drop m).take L).all isDotC = true
  · rw [if_pos hall] at hbody
    split at hbody
    · rw [Option.map_eq_some'] at hbody
      obtain ⟨g, hg, hpair⟩ := hbody
      cases hpair
      constructor
      · intro hnil
        have hlen0 := congrArg List.length hnil
        rw [List.length_take, List.length_nil] at hlen0
        omega
      · exact tailAfterColon_ne_nil hg
    · cases hbody
  · rw [if_neg hall] at hbody
    cases hbody

theorem ternScanE_branches :
    ∀ {s pre c v1 v2 : Str}, ternScanE pre s = some (c, v1, v2) → v1 ≠ [] ∧ v2 ≠ [] := by
  intro s
  induction s with
  | nil => intro pre c v1 v2 h; cases h
  | cons ch t ih =>
    intro pre c v1 v2 h
    unfold ternScanE at h
    by_cases hch : ch = '?'
    · rw [if_pos hch] at h
      cases he : exprTernAt pre t with
      | none => rw [he] at h; exact ih h
      | some r =>
        rw [he] at h
        cases h
        unfold exprTernAt at he
        cases hcap : lazyHeadCapture pre with
        | none => rw [hcap] at he; cases he
        | some g1 =>
          rw [hcap, Option.map_eq_some'] at he
          obtain ⟨p, hp, hpr⟩ := he
          cases hpr
          exact exprTernTail_branches (by rw [hp])
    · rw [if_neg hch] at h
      exact ih h

/-- C10 (amended): whenever a FIELD expression matches the ternary
grammar, both captured branches are non-empty before trimming, and any
selected branch containing a character other than space or tab remains
non-empty after trimming, so the quote-stripping reads of its first and
last characters are in bounds. -/
theorem C10_amended (e c v1 v2 : Str) (hm : exprTernaryMatch e = some (c, v1, v2)) :
    (v1 ≠ [] ∧ v2 ≠ []) ∧
    ∀ v, (v = v1 ∨ v = v2) → (∃ ch ∈ v, isWT ch = false) →
      trimWT v ≠ [] ∧ (trimWT v).head?.isSome = true ∧ (trimWT v).getLast?.isSome = true := by
  constructor
  · exact ternScanE_branches hm
  · intro v _ hex
    have hne := trimWT_ne_nil hex
    refine ⟨hne, ?_, ?_⟩
    · cases ht : trimWT v with
      | nil => exact absurd ht hne
      | cons a t => rfl
    · cases ht : trimWT v with
      | nil => exact absurd ht hne
      | cons a t => simp [List.getLast?_isSome]

/-- C10 witness: the amended statement at the ternary `x = 'a' ? b : c`. -/
theorem C10_amended_witness :
    (str "b" ≠ [] ∧ str "c" ≠ []) ∧
    ∀ v, (v = str "b" ∨ v = str "c") → (∃ ch ∈ v, isWT ch = false) →
      trimWT v ≠ [] ∧ (trimWT v).head?.isSome = true ∧ (trimWT v).getLast?.isSome = true :=
  C10_amended (str "x = 'a' ? b : c") (str "x = 'a'") (str "b") (str "c") (by decide)

/-- C4: a GLOBAL ternary `cond ? ACCEPT : REJECT` (either orientation of
the two outcome tokens) keeps a row exactly when the token selected by
evaluating `cond` under the simple grammar is `ACCEPT` — the mapping is
symbolic, not positional — and a condition that does not match the
ternary grammar is evaluated directly under the simple grammar. -/
theorem C4_ternary_symbolic :
    (∀ (c t1 t2 : Str) (row headers : List Str),
       c ≠ [] → '?' ∉ c → c.all isDotC = true → isSpaceC (c.getLastD '?') = false →
       (t1 = acceptTok ∨ t1 = rejectTok) → (t2 = acceptTok ∨ t2 = rejectTok) →
       (evaluate_rule_condition (c ++ str " ? " ++ t1 ++ str " : " ++ t2) row headers = true ↔
         (if evaluate_simple_condition (trimWT c) row headers then t1 else t2) = acceptTok)) ∧
    (∀ cond row headers, condTernaryMatch cond = none →
       evaluate_rule_condition cond row headers = evaluate_simple_condition cond row headers) := by
  constructor
  · intro c t1 t2 row headers hne hq hdot hlast ht1 ht2
    have hrev := rev_takeWhile_nil_of_last hne hlast
    have hcap := lazyHeadCapture_clean hne hdot hrev
    have hkey : condTernaryMatch (c ++ str " ? " ++ t1 ++ str " : " ++ t2) =
        some (c, t1, t2) := by
      unfold condTernaryMatch
      have hassoc : c ++ str " ? " ++ t1 ++ str " : " ++ t2 =
          c ++ ([' '] ++ ('?' :: ' ' :: (t1 ++ (' ' :: ':' :: ' ' :: t2)))) := by
        simp [str, List.append_assoc]
      rw [hassoc]
      rw [ternScanC_through (fun ch hch heq => hq (heq ▸ hch))]
      rw [ternScanC_through (show ∀ ch ∈ [' '], ch ≠ '?' from by decide)]
      have hpre : [' '].reverse ++ (c.reverse ++ []) = ' ' :: c.reverse := by simp
      rw [hpre]
      have hat : condTernAt (' ' :: c.reverse) (' ' :: (t1 ++ (' ' :: ':' :: ' ' :: t2))) =
          some (c, t1, t2) := by
        unfold condTernAt
        rw [hcap]
        show (condTernTail (' ' :: (t1 ++ (' ' :: ':' :: ' ' :: t2)))).map
            (fun p => (c, p.1, p.2)) = some (c, t1, t2)
        rcases ht1 with rfl | rfl <;> rcases ht2 with rfl | rfl
        · rw [show condTernTail (' ' :: (acceptTok ++ (' ' :: ':' :: ' ' :: acceptTok))) =
              some (acceptTok, acceptTok) from by decide]
          rfl
        · rw [show condTernTail (' ' :: (acceptTok ++ (' ' :: ':' :: ' ' :: rejectTok))) =
              some (acceptTok, rejectTok) from by decide]
          rfl
        · rw [show condTernTail (' ' :: (rejectTok ++ (' ' :: ':' :: ' ' :: acceptTok))) =
              some (rejectTok, acceptTok) from by decide]
          rfl
        · rw [show condTernTail (' ' :: (rejectTok ++ (' ' :: ':' :: ' ' :: rejectTok))) =
              some (rejectTok, rejectTok) from by decide]
          rfl
      simp only [ternScanC, hat, if_true]
    simp only [evaluate_rule_condition, hkey]
    exact decide_eq_true_iff
  · intro cond row headers h
    simp only [evaluate_rule_condition, h]

/-- C4 witness: both outcomes of `salary >= '75000' ? ACCEPT : REJECT` at
a concrete row. -/
theorem C4_witness :
    evaluate_rule_condition (str "salary >= '75000'" ++ str " ? " ++ acceptTok ++ str " : " ++
        rejectTok) [str "85000"] [str "salary"] = true ↔
      (if evaluate_simple_condition (trimWT (str "salary >= '75000'")) [str "85000"]
          [str "salary"] then acceptTok else rejectTok) = acceptTok :=
  C4_ternary_symbolic.1 (str "salary >= '75000'") acceptTok rejectTok [str "85000"]
    [str "salary"] (by decide) (by decide) (by decide) (by decide) (Or.inl rfl) (Or.inr rfl)

theorem decScale_fst (a b : Dec) :
    ((decScale a b).1 : ℚ) * 10 ^ (min a.2 b.2) = decToRat a := by
  unfold decScale decToRat
  have hd : min a.2 b.2 ≤ a.2 := min_le_left _ _
  push_cast
  rw [← zpow_natCast (10 : ℚ) (a.2 - min a.2 b.2).toNat,
    Int.toNat_of_nonneg (by omega), mul_assoc,
    ← zpow_add₀ (by norm_num : (10 : ℚ) ≠ 0), sub_add_cancel]

theorem decScale_snd (a b : Dec) :
    ((decScale a b).2 : ℚ) * 10 ^ (min a.2 b.2) = decToRat b := by
  unfold decScale decToRat
  have hd : min a.2 b.2 ≤ b.2 := min_le_right _ _
  push_cast
  rw [← zpow_natCast (10 : ℚ) (b.2 - min a.2 b.2).toNat,
    Int.toNat_of_nonneg (by omega), mul_assoc,
    ← zpow_add₀ (by norm_num : (10 : ℚ) ≠ 0), sub_add_cancel]

theorem decLe_iff (a b : Dec) : decLe a b = true ↔ decToRat a ≤ decToRat b := by
  unfold decLe
  rw [decide_eq_true_iff, ← decScale_fst a b, ← decScale_snd a b,
    mul_le_mul_right (zpow_pos (by norm_num : (0 : ℚ) < 10) (min a.2 b.2))]
  exact Int.cast_le.symm

theorem decLt_iff (a b : Dec) : decLt a b = true ↔ decToRat a < decToRat b := by
  unfold decLt
  rw [decide_eq_true_iff, ← decScale_fst a b, ← decScale_snd a b,
    mul_lt_mul_right (zpow_pos (by norm_num : (0 : ℚ) < 10) (min a.2 b.2))]
  exact Int.cast_lt.symm

theorem decEqv_iff (a b : Dec) : decEqv a b = true ↔ decToRat a = decToRat b := by
  unfold decEqv
  rw [decide_eq_true_iff, ← decScale_fst a b, ← decScale_snd a b,
    mul_left_inj' (zpow_pos (by norm_num : (0 : ℚ) < 10) (min a.2 b.2)).ne']
  exact Int.cast_inj.symm

theorem numCmp_eq_ratCmp (op : Str) (a b : Dec) :
    numCmp op a b = ratCmp op (decToRat a) (decToRat b) := by
  unfold numCmp ratCmp
  by_cases h1 : op = str "="
  · rw [if_pos h1, if_pos h1, Bool.eq_iff_iff, decide_eq_true_iff]
    exact decEqv_iff a b
  rw [if_neg h1, if_neg h1]
  by_cases h2 : op = str "!="
  · rw [if_pos h2, if_pos h2, Bool.eq_iff_iff, decide_eq_true_iff, Bool.not_eq_true',
      ← Bool.not_eq_true, decEqv_iff]
  rw [if_neg h2, if_neg h2]
  by_cases h3 : op = str ">"
  · rw [if_pos h3, if_pos h3, Bool.eq_iff_iff, decide_eq_true_iff]
    exact decLt_iff b a
  rw [if_neg h3, if_neg h3]
  by_cases h4 : op = str "<"
  · rw [if_pos h4, if_pos h4, Bool.eq_iff_iff, decide_eq_true_iff]
    exact decLt_iff a b
  rw [if_neg h4, if_neg h4]
  by_cases h5 : op = str ">="
  · rw [if_pos h5, if_pos h5, Bool.eq_iff_iff, decide_eq_true_iff]
    exact decLe_iff b a
  rw [if_neg h5, if_neg h5]
  by_cases h6 : op = str "<="
  · rw [if_pos h6, if_pos h6, Bool.eq_iff_iff, decide_eq_true_iff]
    exact decLe_iff a b
  rw [if_neg h6, if_neg h6]

/-- C3: once the condition parses and the field resolves to a row value,
the comparison is numeric — on the exact values of the parsed numbers —
exactly when both the field value and the literal parse with `std::stod`,
and otherwise it is a string comparison (lexicographic for the order
operators, exact equality for `=`/`!=`); in particular `salary >= '9'` on
`salary = "75000"` is a numeric compare (true) while `name >= '9'` on
`name = "Abe"` is a lexicographic compare. -/
theorem C3_numeric_vs_lexicographic :
    (∀ cond f op lit i v row headers,
       simpleCondParse cond = some (f, op, lit) →
       List.findIdx? (fun x => x = f) headers = some i →
       row.get? i = some v →
       (∀ a b, stodParse v = some a → stodParse lit = some b →
          evaluate_simple_condition cond row headers =
            ratCmp op (decToRat a) (decToRat b)) ∧
       (((stodParse v).isNone ∨ (stodParse lit).isNone) →
          evaluate_simple_condition cond row headers = strCmp op v lit)) ∧
    evaluate_simple_condition (str "salary >= '9'") [str "75000"] [str "salary"] = true ∧
    stodParse (str "Abe") = none ∧
    evaluate_simple_condition (str "name >= '9'") [str "Abe"] [str "name"] =
      strCmp (str ">=") (str "Abe") (str "9") ∧
    strCmp (str ">=") (str "Abe") (str "9") = true := by
  refine ⟨?_, by decide, by decide, by decide, by decide⟩
  intro cond f op lit i v row headers h1 h2 h3
  constructor
  · intro a b ha hb
    simp only [evaluate_simple_condition, h1, h2, h3, ha, hb]
    exact numCmp_eq_ratCmp op a b
  · intro hnone
    simp only [evaluate_simple_condition, h1, h2, h3]
    rcases hnone with hn | hn <;> rw [Option.isNone_iff_eq_none] at hn
    · simp only [hn]
    · cases hv : stodParse v with
      | none => simp only [hn, hv]
      | some a => simp only [hn, hv]

/-- C3 witness: the numeric regime at `salary >= '9'`, `salary = "75000"`. -/
theorem C3_witness :
    evaluate_simple_condition (str "salary >= '9'") [str "75000"] [str "salary"] =
      ratCmp (str ">=") (decToRat (75000, 0)) (decToRat (9, 0)) :=
  (C3_numeric_vs_lexicographic.1 (str "salary >= '9'") (str "salary") (str ">=") (str "9") 0
      (str "75000") [str "75000"] [str "salary"] (by decide) (by decide) (by decide)).1
    (75000, 0) (9, 0) (by decide) (by decide)

theorem extractQuotedAux_none (q : Char) (n : Nat) {s : Str}
    (h : splitFirstPair q s = none) :
    ∀ fuel, extractQuotedAux q fuel n s = (s, [], n) := by
  intro fuel
  cases fuel with
  | zero => rfl
  | succ f =>
    unfold extractQuotedAux
    rw [h]

theorem extractLiterals_id {s : Str} (h1 : splitFirstPair '"' s = none)
    (h2 : splitFirstPair '\'' s = none) : extractLiterals s = (s, []) := by
  unfold extractLiterals
  rw [extractQuotedAux_none '"' 0 h1]
  dsimp only
  rw [extractQuotedAux_none '\'' 0 h2]
  rfl

theorem countOcc_append (c : Char) (l1 l2 : Str) :
    countOcc c (l1 ++ l2) = countOcc c l1 + countOcc c l2 := by
  unfold countOcc
  rw [List.filter_append, List.length_append]

theorem substituteFields_nil (e : Str) (row : List Str) (lits : List (Str × Str)) :
    substituteFields e [] row lits = e := rfl

theorem restoreLiterals_nil (e : Str) : restoreLiterals e [] = e := rfl

theorem findSubstr_none_of_not_mem {needle hay : Str} {c : Char}
    (hc : c ∈ needle) (h : c ∉ hay) : findSubstr needle hay = none := by
  cases hf : findSubstr needle hay with
  | none => rfl
  | some i => exact absurd (findSubstr_subset hf c hc) h

theorem generalExpr_title {s : Str}
    (hcs : ∀ c ∈ s, c ≠ '"' ∧ c ≠ '?' ∧ c ≠ ')' ∧ c ≠ '+' ∧ c ≠ '*')
    (hq : countOcc '\'' s ≤ 1) :
    generalExpr (str "TITLE(" ++ (s ++ [')'])) [] [] = titleCase s := by
  have hpre : ∀ c ∈ str "TITLE(", c ≠ '"' ∧ c ≠ '?' ∧ c ≠ ')' ∧ c ≠ '+' ∧ c ≠ '*' ∧
      c ≠ '\'' := by decide
  have hdq : ∀ c ∈ str "TITLE(" ++ (s ++ [')']), c ≠ '"' := by
    intro c hc
    rcases List.mem_append.mp hc with h | h
    · exact (hpre c h).1
    · rcases List.mem_append.mp h with h | h
      · exact (hcs c h).1
      · simp only [List.mem_singleton] at h
        subst h
        decide
  have hsq : countOcc '\'' (str "TITLE(" ++ (s ++ [')'])) ≤ 1 := by
    rw [countOcc_append, countOcc_append]
    have e1 : countOcc '\'' (str "TITLE(") = 0 := by decide
    have e2 : countOcc '\'' [')'] = 0 := by decide
    omega
  have hx1 := splitFirstPair_none_of_not_mem hdq
  have hx2 := splitFirstPair_none_of_count hsq
  simp only [generalExpr, extractLiterals_id hx1 hx2, substituteFields_nil,
    restoreLiterals_nil]
  have hplus : findSubstr (str " + ") (str "TITLE(" ++ (s ++ [')'])) = none := by
    apply findSubstr_none_of_not_mem (show '+' ∈ str " + " from by decide)
    intro hmem
    rcases List.mem_append.mp hmem with h | h
    · exact absurd rfl (hpre '+' h).2.2.2.1
    · rcases List.mem_append.mp h with h | h
      · exact absurd rfl (hcs '+' h).2.2.2.1
      · simp at h
  have hstar : findSubstr (str " * ") (str "TITLE(" ++ (s ++ [')'])) = none := by
    apply findSubstr_none_of_not_mem (show '*' ∈ str " * " from by decide)
    intro hmem
    rcases List.mem_append.mp hmem with h | h
    · exact absurd rfl (hpre '*' h).2.2.2.2.1
    · rcases List.mem_append.mp h with h | h
      · exact absurd rfl (hcs '*' h).2.2.2.2
      · simp at h
  rw [hplus, hstar]
  simp only [Option.isSome_none, Bool.false_eq_true, if_false]
  rw [show leadsWith (str "UPPER(") (str "TITLE(" ++ (s ++ [')'])) = false from rfl]
  rw [show leadsWith (str "LOWER(") (str "TITLE(" ++ (s ++ [')'])) = false from rfl]
  rw [show leadsWith (str "TITLE(") (str "TITLE(" ++ (s ++ [')'])) = true from
    leadsWith_append _ _]
  simp only [Bool.false_eq_true, if_false, if_true]
  unfold funcContent
  have hdrop : (str "TITLE(" ++ (s ++ [')'])).dropWhile (fun c => decide (c ≠ '(')) =
      '(' :: (s ++ [')']) := by
    rw [show str "TITLE(" ++ (s ++ [')']) = str "TITLE" ++ ('(' :: (s ++ [')'])) from rfl]
    rw [dropWhile_append_all (by decide)]
    rw [List.dropWhile_cons]
    simp
  rw [hdrop]
  dsimp only
  rw [show ('(' :: (s ++ [')'])).drop 1 = s ++ [')'] from rfl]
  have htake : (s ++ [')']).takeWhile (fun c => decide (c ≠ ')')) = s := by
    rw [takeWhile_append_all (fun c hc => by simp [(hcs c hc).2.2.1])]
    simp
  have hany2 : ((s ++ [')']).any fun c => decide (c = ')')) = true := by simp
  rw [if_pos hany2, htake]

/-- C9: TITLE lowercases the whole parenthesized content, then uppercases
the first character when alphabetic and every alphabetic character
directly after a space (stated for contents free of the metacharacters
that would select another branch, with at most one apostrophe — an
unpaired apostrophe is not extracted as a literal); in particular
`TITLE("bob o'neil")` gives `"Bob O'neil"`, the apostrophe not acting as
a word boundary. -/
theorem C9_title_case :
    (∀ s : Str, (∀ c ∈ s, c ≠ '"' ∧ c ≠ '?' ∧ c ≠ ')' ∧ c ≠ '+' ∧ c ≠ '*') →
       countOcc '\'' s ≤ 1 → ∀ tf,
       apply_rule { type := RuleType.FIELD, condition := str "TITLE(" ++ (s ++ [')']),
                    target_field := tf } [] [] = titleCase s) ∧
    apply_rule { type := RuleType.FIELD, condition := str "TITLE(\"bob o'neil\")",
                 target_field := str "t" } [] [] = str "Bob O'neil" := by
  constructor
  · intro s hcs hq tf
    have hnq : ∀ ch ∈ str "TITLE(" ++ (s ++ [')']), ch ≠ '?' := by
      intro ch hc
      rcases List.mem_append.mp hc with h | h
      · exact (show ∀ c ∈ str "TITLE(", c ≠ '?' from by decide) ch h
      · rcases List.mem_append.mp h with h | h
        · exact (hcs ch h).2.1
        · simp only [List.mem_singleton] at h
          subst h
          decide
    have hmatch : exprTernaryMatch (str "TITLE(" ++ (s ++ [')'])) = none :=
      ternScanE_no_q hnq []
    simp only [apply_rule, hmatch, List.findIdx?_nil]
    exact generalExpr_title hcs hq
  · decide

/-- C9 witness: the general statement at `s = "bob o'neil"`, whose title
case is `"Bob O'neil"`. -/
theorem C9_witness :
    apply_rule { type := RuleType.FIELD,
                 condition := str "TITLE(" ++ (str "bob o'neil" ++ [')']),
                 target_field := str "t" } [] [] = str "Bob O'neil" :=
  (C9_title_case.1 (str "bob o'neil") (by decide) (by decide) (str "t")).trans (by decide)

theorem plainLit_mem {lit : Str} (hp : plainLit lit = true) :
    ∀ c ∈ lit, c ≠ '"' ∧ c ≠ '\'' ∧ c ≠ '?' := by
  unfold plainLit at hp
  simp only [Bool.and_eq_true, Bool.not_eq_true', Option.isNone_iff_eq_none] at hp
  have ha := hp.1.1.1.1.1
  intro c hc
  cases hf : (c = '"' || c = '\'' || c = '?' : Bool) with
  | true =>
    have : lit.any (fun c => c = '"' || c = '\'' || c = '?') = true :=
      List.any_eq_true.mpr ⟨c, hc, hf⟩
    rw [ha] at this
    cases this
  | false =>
    simp only [Bool.or_eq_false_iff, decide_eq_false_iff_not] at hf
    exact ⟨hf.1.1, hf.1.2, hf.2⟩

theorem plainLit_flags {lit : Str} (hp : plainLit lit = true) :
    findSubstr (str " + ") lit = none ∧ findSubstr (str " * ") lit = none ∧
    leadsWith (str "UPPER(") lit = false ∧ leadsWith (str "LOWER(") lit = false ∧
    leadsWith (str "TITLE(") lit = false := by
  unfold plainLit at hp
  simp only [Bool.and_eq_true, Bool.not_eq_true', Option.isNone_iff_eq_none] at hp
  exact ⟨hp.1.1.1.1.2, hp.1.1.1.2, hp.1.1.2, hp.1.2, hp.2⟩

theorem splitFirstPair_quoted {lit : Str} (h : ∀ c ∈ lit, c ≠ '"') :
    splitFirstPair '"' ('"' :: (lit ++ ['"'])) = some ([], lit, []) := by
  have hstep : ('"' :: (lit ++ ['"'])).dropWhile (fun c => decide (c ≠ '"')) =
      '"' :: (lit ++ ['"']) := by
    rw [List.dropWhile_cons]
    simp
  have hstep0 : ('"' :: (lit ++ ['"'])).takeWhile (fun c => decide (c ≠ '"')) = [] := by
    rw [List.takeWhile_cons]
    simp
  have hstep2 : (lit ++ ['"']).dropWhile (fun c => decide (c ≠ '"')) = ['"'] := by
    rw [dropWhile_append_all (fun c hc => by simp [h c hc])]
    rfl
  have hstep3 : (lit ++ ['"']).takeWhile (fun c => decide (c ≠ '"')) = lit := by
    rw [takeWhile_append_all (fun c hc => by simp [h c hc])]
    simp
  simp only [splitFirstPair, hstep, hstep0, hstep2, hstep3]

theorem extractLiterals_quoted {lit : Str} (h : ∀ c ∈ lit, c ≠ '"' ∧ c ≠ '\'') :
    extractLiterals ('"' :: (lit ++ ['"'])) = (placeholderStr 0, [(placeholderStr 0, lit)]) := by
  unfold extractLiterals
  have hsp := splitFirstPair_quoted (fun c hc => (h c hc).1)
  have hfirst : ∀ f, extractQuotedAux '"' (f + 1) 0 ('"' :: (lit ++ ['"'])) =
      (placeholderStr 0, [(placeholderStr 0, lit)], 1) := by
    intro f
    unfold extractQuotedAux
    rw [hsp]
    dsimp only
    rw [extractQuotedAux_none '"' (0 + 1) (show splitFirstPair '"' [] = none from rfl) f]
    simp
  rw [show ('"' :: (lit ++ ['"'])).length = (lit ++ ['"']).length + 1 from rfl, hfirst]
  dsimp only
  rw [extractQuotedAux_none '\'' 1 (by decide)]
  rfl

theorem restoreLiterals_single (ph lit : Str) : restoreLiterals ph [(ph, lit)] = lit := by
  unfold restoreLiterals
  simp only [List.foldl_cons, List.foldl_nil, findSubstr_self]
  simp [List.drop_length]

theorem apply_rule_literal {lit : Str} (hp : plainLit lit = true) (tf : Str) :
    apply_rule { type := RuleType.FIELD, condition := '"' :: (lit ++ ['"']),
                 target_field := tf } [] [] = lit := by
  have hmem := plainLit_mem hp
  have hnq : ∀ ch ∈ ('"' :: (lit ++ ['"'])), ch ≠ '?' := by
    intro ch hc
    rcases List.mem_cons.mp hc with rfl | hm
    · decide
    · rcases List.mem_append.mp hm with hm | hm
      · exact (hmem ch hm).2.2
      · simp only [List.mem_singleton] at hm
        subst hm
        decide
  have hmatch : exprTernaryMatch ('"' :: (lit ++ ['"'])) = none := ternScanE_no_q hnq []
  have hx := extractLiterals_quoted (fun c hc => ⟨(hmem c hc).1, (hmem c hc).2.1⟩)
  obtain ⟨f1, f2, f3, f4, f5⟩ := plainLit_flags hp
  simp only [apply_rule, hmatch, List.findIdx?_nil, generalExpr, hx, substituteFields_nil,
    restoreLiterals_single, f1, f2, f3, f4, f5, Option.isSome_none, Bool.false_eq_true,
    if_false]

theorem isEmpty_false_of_ne_nil {l : List Str} (h : l ≠ []) : l.isEmpty = false := by
  cases l with
  | nil => exact absurd rfl h
  | cons a t => rfl

theorem sourceFor_static {db : Database} {rules : List TransformationRule}
    (href : hasInputFieldReferences db rules = false) :
    sourceFor db rules = some ([], [[]]) := by
  unfold sourceFor
  rw [href]
  rfl

/-- C1 (amended): with at least one table loaded, a non-empty output
header list, no GLOBAL rules and no FIELD rule referencing any loaded
table's column, `transform_data` yields exactly one output row (projected
from the synthetic empty source row), and each output column whose first
FIELD rule is a plain double-quoted literal carries that literal's value. -/
theorem C1_static_rules :
    ∀ (db : Database) (rules : List TransformationRule) (outH : List Str),
      db ≠ [] → outH ≠ [] → hasInputFieldReferences db rules = false →
      (∀ r ∈ rules, r.type ≠ RuleType.GLOBAL) →
      transform_data db rules outH =
        some { headers := outH, rows := [outH.map (projectCell rules [] [])] } ∧
      (∀ h lit tf,
        firstFieldRuleFor rules h =
          some { type := RuleType.FIELD, condition := '"' :: (lit ++ ['"']),
                 target_field := tf } →
        plainLit lit = true → projectCell rules [] [] h = lit) := by
  intro db rules outH hdb hout href hng
  constructor
  · unfold transform_data
    rw [isEmpty_false_of_ne_nil hout, isEmpty_false_of_ne_nil (tableNames_ne_nil hdb),
      sourceFor_static href]
    simp only [Bool.false_eq_true, if_false, List.foldl_cons, List.foldl_nil,
      passesGlobals_of_no_globals hng, if_true, List.nil_append]
  · intro h lit tf hrule hp
    simp only [projectCell, hrule]
    exact apply_rule_literal hp tf

/-- C1 witness: one table loaded, one literal FIELD rule, one output
header — one output row carrying `Hi`. -/
theorem C1_static_rules_witness :
    transform_data [{ name := str "t", headers := [str "x"], records := [[str "1"]] }]
        [{ type := RuleType.FIELD, condition := '"' :: (str "Hi" ++ ['"']),
           target_field := str "greeting" }] [str "greeting"] =
      some { headers := [str "greeting"],
             rows := [[str "greeting"].map (projectCell
               [{ type := RuleType.FIELD, condition := '"' :: (str "Hi" ++ ['"']),
                  target_field := str "greeting" }] [] [])] } ∧
    (∀ h lit tf,
      firstFieldRuleFor
          [{ type := RuleType.FIELD, condition := '"' :: (str "Hi" ++ ['"']),
             target_field := str "greeting" }] h =
        some { type := RuleType.FIELD, condition := '"' :: (lit ++ ['"']),
               target_field := tf } →
      plainLit lit = true →
      projectCell
          [{ type := RuleType.FIELD, condition := '"' :: (str "Hi" ++ ['"']),
             target_field := str "greeting" }] [] [] h = lit) :=
  C1_static_rules [{ name := str "t", headers := [str "x"], records := [[str "1"]] }]
    [{ type := RuleType.FIELD, condition := '"' :: (str "Hi" ++ ['"']),
       target_field := str "greeting" }] [str "greeting"]
    (by decide) (by decide) (by decide) (by decide)

/-- C6: a source row contributes an output row exactly when it passes
every GLOBAL rule (a conjunctive filter over the rules in declaration
order), and the output rows are the projections of the surviving source
rows in their original relative order (filter-then-map, no re-sorting). -/
theorem C6_global_filter_stable (db : Database) (rules : List TransformationRule)
    (outH sh : List Str) (srows : List (List Str)) (res : QueryResult)
    (hout : outH ≠ []) (hnames : tableNames db ≠ [])
    (hsrc : sourceFor db rules = some (sh, srows))
    (hres : transform_data db rules outH = some res) :
    res.rows = (srows.filter (fun row => passesGlobals rules row sh)).map
        (fun row => outH.map (projectCell rules sh row)) ∧
    (∀ row, passesGlobals rules row sh = true ↔
       ∀ r ∈ rules, r.type = RuleType.GLOBAL →
         evaluate_rule_condition r.condition row sh = true) :=
  ⟨(transform_data_rows hout hnames hsrc hres).2,
   fun row => passesGlobals_iff rules row sh⟩

/-- C6 witness: a three-row table filtered by `salary >= '70000'` keeps
the first and third rows, in order. -/
theorem C6_witness :
    (QueryResult.mk [str "who", str "pay"]
        [[str "John", str "75000"], [str "Bob", str "85000"]]).rows =
      (([[str "John", str "75000"], [str "Jane", str "65000"],
         [str "Bob", str "85000"]].filter
          (fun row => passesGlobals
            [{ type := RuleType.GLOBAL, condition := str "salary >= '70000'" },
             { type := RuleType.FIELD, condition := str "first_name",
               target_field := str "who" },
             { type := RuleType.FIELD, condition := str "salary",
               target_field := str "pay" }] row [str "first_name", str "salary"])).map
        (fun row => [str "who", str "pay"].map (projectCell
          [{ type := RuleType.GLOBAL, condition := str "salary >= '70000'" },
           { type := RuleType.FIELD, condition := str "first_name",
             target_field := str "who" },
           { type := RuleType.FIELD, condition := str "salary",
             target_field := str "pay" }] [str "first_name", str "salary"] row))) ∧
    (∀ row, passesGlobals
        [{ type := RuleType.GLOBAL, condition := str "salary >= '70000'" },
         { type := RuleType.FIELD, condition := str "first_name",
           target_field := str "who" },
         { type := RuleType.FIELD, condition := str "salary",
           target_field := str "pay" }] row [str "first_name", str "salary"] = true ↔
       ∀ r ∈ ([{ type := RuleType.GLOBAL, condition := str "salary >= '70000'" },
               { type := RuleType.FIELD, condition := str "first_name",
                 target_field := str "who" },
               { type := RuleType.FIELD, condition := str "salary",
                 target_field := str "pay" }] : List TransformationRule),
         r.type = RuleType.GLOBAL →
           evaluate_rule_condition r.condition row [str "first_name", str "salary"] = true) :=
  C6_global_filter_stable
    [{ name := str "employees", headers := [str "first_name", str "salary"],
       records := [[str "John", str "75000"], [str "Jane", str "65000"],
                   [str "Bob", str "85000"]] }]
    [{ type := RuleType.GLOBAL, condition := str "salary >= '70000'" },
     { type := RuleType.FIELD, condition := str "first_name", target_field := str "who" },
     { type := RuleType.FIELD, condition := str "salary", target_field := str "pay" }]
    [str "who", str "pay"] [str "first_name", str "salary"]
    [[str "John", str "75000"], [str "Jane", str "65000"], [str "Bob", str "85000"]]
    (QueryResult.mk [str "who", str "pay"]
      [[str "John", str "75000"], [str "Bob", str "85000"]])
    (by decide) (by decide) (by decide) (by decide)

theorem findIdx_none_of_contains_false {sh : List Str} {h : Str}
    (hc : sh.contains h = false) : List.findIdx? (fun x => x = h) sh = none := by
  rw [List.findIdx?_eq_none_iff]
  intro x hx
  simp only [decide_eq_false_iff_not]
  intro heq
  subst heq
  have hm : sh.elem x = true := List.elem_eq_true_of_mem hx
  rw [show sh.contains x = sh.elem x from rfl, hm] at hc
  cases hc

/-- C7: the unmapped-output warning list is exactly the output headers
with neither a FIELD rule nor a same-named source column; such columns
hold the empty string in every output row; headers resolved by a FIELD
rule or by pass-through are not warned about and take the rule's or the
source's value; and a run surfaces exactly one aggregated warning when
the list is non-empty, none otherwise. -/
theorem C7_unmapped_columns (db : Database) (rules : List TransformationRule)
    (outH sh : List Str) (srows : List (List Str)) (res : QueryResult)
    (hout : outH ≠ []) (hnames : tableNames db ≠ [])
    (hsrc : sourceFor db rules = some (sh, srows))
    (hres : transform_data db rules outH = some res) :
    transformUnmapped db rules outH =
      outH.filter (fun h => !(firstFieldRuleFor rules h).isSome && !sh.contains h) ∧
    (∀ h, (firstFieldRuleFor rules h).isSome = false → sh.contains h = false →
       (∀ row, projectCell rules sh row h = []) ∧
       (∀ row2 ∈ res.rows, ∀ i, outH.get? i = some h → row2.get? i = some [])) ∧
    (∀ h r, firstFieldRuleFor rules h = some r →
       (∀ row, projectCell rules sh row h = apply_rule r row sh) ∧
       h ∉ transformUnmapped db rules outH) ∧
    (∀ h, (firstFieldRuleFor rules h).isSome = false → sh.contains h = true →
       h ∉ transformUnmapped db rules outH) ∧
    (transformUnmapped db rules outH = [] → transformWarnings db rules outH = []) ∧
    (transformUnmapped db rules outH ≠ [] →
       transformWarnings db rules outH = [transformUnmapped db rules outH]) := by
  have hA : transformUnmapped db rules outH =
      outH.filter (fun h => !(firstFieldRuleFor rules h).isSome && !sh.contains h) := by
    unfold transformUnmapped
    rw [isEmpty_false_of_ne_nil hout, isEmpty_false_of_ne_nil hnames]
    simp only [Bool.false_eq_true, if_false, hsrc]
    unfold unmappedFields
    rw [unmappedFields_eq]
    simp
  have hcell : ∀ h, (firstFieldRuleFor rules h).isSome = false → sh.contains h = false →
      ∀ row, projectCell rules sh row h = [] := by
    intro h h1 h2 row
    cases hr : firstFieldRuleFor rules h with
    | some r => rw [hr] at h1; cases h1
    | none => simp only [projectCell, hr, findIdx_none_of_contains_false h2]
  have hrows := (transform_data_rows hout hnames hsrc hres).2
  refine ⟨hA, ?_, ?_, ?_, ?_, ?_⟩
  · intro h h1 h2
    refine ⟨hcell h h1 h2, ?_⟩
    intro row2 hrow2 i hget
    rw [hrows] at hrow2
    obtain ⟨row, -, rfl⟩ := List.mem_map.mp hrow2
    rw [List.get?_map, hget, Option.map_some', hcell h h1 h2 row]
  · intro h r hr
    constructor
    · intro row
      simp only [projectCell, hr]
    · intro hmem
      rw [hA] at hmem
      have hcond := List.of_mem_filter hmem
      rw [Bool.and_eq_true, Bool.not_eq_true'] at hcond
      rw [hr] at hcond
      cases hcond.1
  · intro h h1 h2 hmem
    rw [hA] at hmem
    have hcond := List.of_mem_filter hmem
    rw [Bool.and_eq_true] at hcond
    rw [h2] at hcond
    cases hcond.2
  · intro he
    unfold transformWarnings
    rw [he]
    rfl
  · intro hne
    unfold transformWarnings
    rw [isEmpty_false_of_ne_nil hne]
    rfl

/-- C7 witness: output headers `a, b` with a FIELD rule only for `a` and
no source column `b` — exactly `b` is unmapped. -/
theorem C7_witness :
    transformUnmapped [{ name := str "t", headers := [str "x"], records := [[str "1"]] }]
        [{ type := RuleType.FIELD, condition := str "x", target_field := str "a" }]
        [str "a", str "b"] =
      [str "a", str "b"].filter (fun h =>
        !(firstFieldRuleFor
            [{ type := RuleType.FIELD, condition := str "x", target_field := str "a" }]
            h).isSome && !List.contains [str "x"] h) :=
  (C7_unmapped_columns
    [{ name := str "t", headers := [str "x"], records := [[str "1"]] }]
    [{ type := RuleType.FIELD, condition := str "x", target_field := str "a" }]
    [str "a", str "b"] [str "x"] [[str "1"]]
    (QueryResult.mk [str "a", str "b"] [[str "1", []]])
    (by decide) (by decide) (by decide) (by decide)).1
